import Mathlib

/-!
Shallow embedding of the OrbiCloud queue + delivery engine
(worker `src/worker/worker.ts`, API handler `src/api/server.ts`,
limits `src/api/limits.ts`, provider factory `src/providers/factory.ts`,
SQL functions in `migrations/002,004,007,009`).

Conventions of the embedding:
* ids are `Nat`; wall-clock instants are `Nat` milliseconds since epoch
  (matching `Date.now()`); the SQL `NOW()` of a statement is passed in as
  the `nowMs` argument.
* The calendar rendering `new Date().toISOString().slice(0, 7)` ("YYYY-MM")
  is passed in as the `period : String` argument wherever the source
  computes it, because the engine only ever compares periods for equality.
* JSON objects (`JSON.stringify({...})`, `jsonb_build_object`) are modelled
  as association lists `List (String × JsonVal)` where a later entry for a
  key shadows an earlier one, matching JS object-spread semantics.
* Database tables are lists of rows inside `DBState`; an SQL `UPDATE ... WHERE
  id = $1` is a map over the list touching rows with that id, and a
  transaction abort returns the unchanged state via `Except.error`.
-/

namespace OrbiCloud

/-- Minimal JSON value model for event payloads. -/
inductive JsonVal : Type where
  | str (s : String)
  | num (n : Int)
  | boolean (b : Bool)
  | nullVal
  deriving DecidableEq, Repr

/-- A JSON object as an association list; later entries shadow earlier ones
(JS object-spread semantics). -/
abbrev JsonObj := List (String × JsonVal)

/-- Lookup in a JSON object: the last entry for a key wins, as in
JS `{...a, ...b}`. -/
def jsonGet (o : JsonObj) (k : String) : Option JsonVal :=
  (o.reverse.find? (fun kv => kv.1 == k)).map (fun kv => kv.2)

/-- Column `messages.status` (migration 003: queued, delivered, failed, dead). -/
inductive MsgStatus : Type where
  | queued | delivered | failed | dead
  deriving DecidableEq, Repr

/-- Column `projects.status` (migration 001: active, suspended). -/
inductive ProjStatus : Type where
  | active | suspended
  deriving DecidableEq, Repr

/-- Column `events.event_type` (migrations 001/003/005). -/
inductive EventType : Type where
  | requested | queuedEv | sent | delivered | failed
  | bounced | opened | clicked | dead | skipped
  deriving DecidableEq, Repr

/-- Row of `projects` (columns the engine reads). -/
structure Project : Type where
  id : Nat
  status : ProjStatus
  monthly_limit : Option Nat
  rate_limit_per_minute : Option Nat
  deriving DecidableEq, Repr

/-- Row of `messages` (columns the engine reads or writes). -/
structure Msg : Type where
  id : Nat
  project_id : Nat
  type : String
  status : MsgStatus
  from_address : String
  to_address : String
  subject : Option String
  body : String
  idempotency_key : Option String
  attempts : Nat
  max_attempts : Nat
  next_attempt_at : Option Nat
  created_at : Nat
  deriving DecidableEq, Repr

/-- Row of `events`; `payload` is the `provider_response` JSONB column
(`none` when the insert omits it). -/
structure Event : Type where
  id : Nat
  message_id : Nat
  project_id : Nat
  event_type : EventType
  payload : Option JsonObj
  created_at : Nat
  deriving DecidableEq, Repr

/-- Row of `usage` (key `(project_id, period, message_type)`). -/
structure UsageRow : Type where
  project_id : Nat
  period : String
  message_type : String
  count : Nat
  deriving DecidableEq, Repr

/-- Row of `rate_limit_tracking` (key `(project_id, minute_window)`). -/
structure RateRow : Type where
  project_id : Nat
  minute_window : Nat
  count : Nat
  deriving DecidableEq, Repr

/-- The canonical database state shared by API and worker. -/
structure DBState : Type where
  projects : List Project
  messages : List Msg
  events : List Event
  usage : List UsageRow
  rate_buckets : List RateRow
  deriving DecidableEq, Repr

/-- Embeds `calculateBackoff` from `src/worker/worker.ts` lines 34–38:
`delays = [1,5,30,300,1800]; index = Math.min(attempts, delays.length-1)`. -/
def calculateBackoff (attempts : Nat) : Nat :=
  let delays : List Nat := [1, 5, 30, 300, 1800]
  let index := min attempts (delays.length - 1)
  delays.getD index 0

/-- Modelled from the spec (§4.6 RetryPolicy), for comparison with the
source `calculateBackoff`: schedule `[1,5,30,300,1800]` indexed by
`min(attempts_after_failure - 1, 4)`. -/
def specBackoff (attempts_after_failure : Nat) : Nat :=
  let delays : List Nat := [1, 5, 30, 300, 1800]
  delays.getD (min (attempts_after_failure - 1) 4) 0

example : calculateBackoff 1 = 5 := by decide
example : specBackoff 1 = 1 := by decide

/-- The `(project_id, period, message_type)` conflict key of the `usage`
table (`UNIQUE` in migration 002). -/
def usageKey (projectId : Nat) (period messageType : String) (u : UsageRow) : Bool :=
  u.project_id == projectId && u.period == period && u.message_type == messageType

/-- Embeds `incrementUsage` from `src/worker/worker.ts` lines 44–59 (same semantics
as SQL `increment_usage` in migration 002): atomic upsert of the
`(project_id, period, message_type)` bucket, `count = count + 1` on conflict,
`count = 1` on fresh insert.  `period` stands for
`new Date().toISOString().slice(0, 7)` at call time. -/
def incrementUsage (usage : List UsageRow) (projectId : Nat) (period : String)
    (messageType : String) : List UsageRow :=
  if usage.any (usageKey projectId period messageType) then
    usage.map (fun u =>
      if usageKey projectId period messageType u then { u with count := u.count + 1 }
      else u)
  else
    usage ++ [⟨projectId, period, messageType, 1⟩]

/-- Embeds `getProvider` from `src/providers/factory.ts`: returns the (mocked)
adapter for `email`, throws `Unsupported message type: ...` otherwise.
The adapter itself carries no data the engine inspects, so it is `Unit`;
its verdict is supplied to the dispatcher as a `ProviderOutcome`. -/
def getProvider (messageType : String) : Except String Unit :=
  if messageType == "email" then Except.ok ()
  else Except.error ("Unsupported message type: " ++ messageType)

/-- The `WHERE` clause of the claim query (`worker.ts` lines 81–82 and SQL
`dequeue_messages` in migration 007):
`status = 'queued' AND (next_attempt_at IS NULL OR next_attempt_at <= NOW())`. -/
def messageReady (nowMs : Nat) (m : Msg) : Bool :=
  m.status == MsgStatus.queued &&
    (match m.next_attempt_at with
     | none => true
     | some t => t ≤ nowMs)

/-- The `ORDER BY created_at ASC` relation on message rows. -/
def createdLe (a b : Msg) : Prop := a.created_at ≤ b.created_at

instance : DecidableRel createdLe :=
  fun a b => inferInstanceAs (Decidable (a.created_at ≤ b.created_at))

instance : IsTotal Msg createdLe := ⟨fun a b => Nat.le_total a.created_at b.created_at⟩

instance : IsTrans Msg createdLe := ⟨fun _ _ _ => Nat.le_trans⟩

/-- Embeds `dequeue_messages` (migration 007; identical to the inline query in
`worker.ts` lines 78–87): scan `messages` in `created_at ASC` order, skip
rows locked by other workers, return (and lock) the first `batch_size`
ready rows.  `locked` is the set of row ids currently locked elsewhere;
the `ORDER BY` is modelled as a stable sort. -/
def dequeue_messages (msgs : List Msg) (locked : List Nat) (nowMs : Nat)
    (batch_size : Nat) : List Msg :=
  (((msgs.insertionSort createdLe).filter
      (fun m => messageReady nowMs m && !(locked.contains m.id))).take batch_size)

/-- The verdict the dispatcher observes for one provider call
(`worker.ts` lines 181–184): either a `ProviderResult` value or a thrown
exception (timeout or unexpected error). -/
inductive ProviderOutcome : Type where
  | result (success : Bool) (retryable : Bool) (provider_response : JsonObj)
      (error_message : Option String)
  | exn (message : String)
  deriving DecidableEq, Repr

/-- An `UPDATE messages SET ... WHERE id = $1`, as a map over the table. -/
def updateMsg (msgs : List Msg) (id : Nat) (f : Msg → Msg) : List Msg :=
  msgs.map (fun m => if m.id == id then f m else m)

/-- JS object spread `{...a, ...b}`: entries of `b` shadow entries of `a`. -/
def spreadJson (a b : JsonObj) : JsonObj :=
  a.filter (fun kv => !(b.any (fun kv2 => kv2.1 == kv.1))) ++ b

/-- The shared retry path of the dispatcher (`worker.ts` lines 209–242 for a
retryable provider verdict, lines 267–300 for a caught exception): set
`next_attempt_at = now + backoff`, leave `status = 'queued'`, append a
`failed` event with the given payload.  `backoffSeconds` and the payload are
built by the caller because the two code paths build different payloads. -/
def scheduleRetry (st : DBState) (nowMs eventId : Nat) (m : Msg)
    (backoffSeconds : Nat) (payload : JsonObj) : DBState :=
  let nextAttempt := nowMs + backoffSeconds * 1000
  { st with
    messages := updateMsg st.messages m.id
      (fun mm => { mm with next_attempt_at := some nextAttempt }),
    events := st.events ++
      [⟨eventId, m.id, m.project_id, EventType.failed, some payload, nowMs⟩] }

/-- Payload of the retryable-failure event (`worker.ts` lines 228–233):
`{...result.provider_response, retryable: true, next_attempt_at, backoff_seconds}`. -/
def retryablePayload (resp : JsonObj) (nowMs backoffSeconds : Nat) : JsonObj :=
  spreadJson resp
    [("retryable", JsonVal.boolean true),
     ("next_attempt_at", JsonVal.num (Int.ofNat (nowMs + backoffSeconds * 1000))),
     ("backoff_seconds", JsonVal.num (Int.ofNat backoffSeconds))]

/-- Payload of the caught-exception event (`worker.ts` lines 286–291):
`{error, retryable: true, next_attempt_at, backoff_seconds}`. -/
def exnPayload (errMessage : String) (nowMs backoffSeconds : Nat) : JsonObj :=
  [("error", JsonVal.str errMessage),
   ("retryable", JsonVal.boolean true),
   ("next_attempt_at", JsonVal.num (Int.ofNat (nowMs + backoffSeconds * 1000))),
   ("backoff_seconds", JsonVal.num (Int.ofNat backoffSeconds))]

/-- The Phase-3 suspension re-check condition (`worker.ts` lines 102–107):
`SELECT status FROM projects WHERE id = $1`, then
`rows.length > 0 && rows[0].status === 'suspended'`. -/
def projectSuspendedIn (projects : List Project) (pid : Nat) : Bool :=
  match projects.find? (fun p => p.id == pid) with
  | some p => p.status == ProjStatus.suspended
  | none => false

/-- The per-message body of `processBatch` (`worker.ts` lines 100–301), for
one claimed message `m` (the locked row snapshot).  `nowMs`/`period` stand
for the wall clock during this iteration, `eventId` for the id the database
assigns to the single event this iteration inserts, and `outcome` for the
verdict of the provider call (only consulted when the call happens). -/
def processMessage (st : DBState) (nowMs : Nat) (period : String) (eventId : Nat)
    (m : Msg) (outcome : ProviderOutcome) : DBState :=
  -- Phase 3 suspension re-check (lines 101–126)
  if projectSuspendedIn st.projects m.project_id then
    { st with
      events := st.events ++
        [⟨eventId, m.id, m.project_id, EventType.skipped,
          some [("reason", JsonVal.str "Project suspended")], nowMs⟩] }
  -- attempt-ceiling check (lines 128–154)
  else if m.max_attempts ≤ m.attempts then
    { st with
      messages := updateMsg st.messages m.id
        (fun mm => { mm with status := MsgStatus.dead }),
      events := st.events ++
        [⟨eventId, m.id, m.project_id, EventType.dead,
          some [("reason", JsonVal.str "Max attempts exceeded"),
                ("attempts", JsonVal.num (Int.ofNat m.attempts))], nowMs⟩] }
  else
    -- increment attempt counter (lines 166–170), then call the provider
    let st1 : DBState :=
      { st with
        messages := updateMsg st.messages m.id
          (fun mm => { mm with attempts := mm.attempts + 1 }) }
    match getProvider m.type with
    | Except.error e =>
        -- adapter factory throws inside the try block → catch (lines 267–300)
        scheduleRetry st1 nowMs eventId m (calculateBackoff (m.attempts + 1))
          (exnPayload e nowMs (calculateBackoff (m.attempts + 1)))
    | Except.ok _ =>
        match outcome with
        | ProviderOutcome.exn e =>
            -- provider threw or timed out → catch (lines 267–300)
            scheduleRetry st1 nowMs eventId m (calculateBackoff (m.attempts + 1))
              (exnPayload e nowMs (calculateBackoff (m.attempts + 1)))
        | ProviderOutcome.result success retryable resp _ =>
            if success then
              -- delivered (lines 186–206)
              { st1 with
                messages := updateMsg st1.messages m.id
                  (fun mm => { mm with status := MsgStatus.delivered }),
                events := st1.events ++
                  [⟨eventId, m.id, m.project_id, EventType.delivered,
                    some resp, nowMs⟩],
                usage := incrementUsage st1.usage m.project_id period m.type }
            else if retryable then
              -- transient failure (lines 209–242)
              scheduleRetry st1 nowMs eventId m (calculateBackoff (m.attempts + 1))
                (retryablePayload resp nowMs (calculateBackoff (m.attempts + 1)))
            else
              -- permanent failure (lines 244–264)
              { st1 with
                messages := updateMsg st1.messages m.id
                  (fun mm => { mm with status := MsgStatus.failed }),
                events := st1.events ++
                  [⟨eventId, m.id, m.project_id, EventType.failed,
                    some (spreadJson resp [("retryable", JsonVal.boolean false)]),
                    nowMs⟩] }

/-- One pass of the janitor's chunked `DELETE WHERE id IN (SELECT id ...
LIMIT 1000)` loop (`worker.ts` lines 402–415 and 419–433), generic over the
table: delete the rows whose ids are among the first 1000 rows matching
`victim`, repeat until a pass deletes nothing.  `fuel` bounds the number of
passes (the source loops until the delete count is 0; any
`fuel ≥ number of matching rows` reaches that fixpoint).  The ~100ms pause
between chunks is timing only and has no effect on the table. -/
def chunkSweep {α : Type} (getId : α → Nat) (victim : α → Bool) :
    Nat → List α → List α
  | 0, xs => xs
  | fuel + 1, xs =>
    let ids := ((xs.filter victim).take 1000).map getId
    if ids.isEmpty then xs
    else chunkSweep getId victim fuel (xs.filter (fun x => !(ids.contains (getId x))))

/-- Thirty days in milliseconds (`INTERVAL '30 days'`, `worker.ts` line 397). -/
def days30Ms : Nat := 30 * 24 * 60 * 60 * 1000

/-- Predicate `created_at < NOW() - INTERVAL '30 days'` for an event row. -/
def eventExpired (nowMs : Nat) (e : Event) : Bool :=
  e.created_at + days30Ms < nowMs

/-- Predicate `status IN ('delivered','failed','dead') AND created_at < NOW() -
INTERVAL '30 days'` for a message row. -/
def messageExpired (nowMs : Nat) (m : Msg) : Bool :=
  (m.status == MsgStatus.delivered || m.status == MsgStatus.failed ||
    m.status == MsgStatus.dead) && m.created_at + days30Ms < nowMs

/-- Embeds `runJanitor` from `src/worker/worker.ts` lines 394–443: chunked delete of
30-day-old events, then chunked delete of 30-day-old terminal messages.
(The fuel `length + 1` passes suffice to reach the loop's fixpoint.) -/
def runJanitor (st : DBState) (nowMs : Nat) : DBState :=
  { st with
    events := chunkSweep Event.id (eventExpired nowMs) (st.events.length + 1) st.events,
    messages := chunkSweep Msg.id (messageExpired nowMs) (st.messages.length + 1) st.messages }

/-- SQL `cleanup_rate_limit_tracking` from migration 004 lines 39–45:
`DELETE FROM rate_limit_tracking WHERE minute_window < NOW() - INTERVAL '1 hour'`. -/
def cleanup_rate_limit_tracking (buckets : List RateRow) (nowMs : Nat) : List RateRow :=
  buckets.filter (fun b => !(b.minute_window + 60 * 60 * 1000 < nowMs))

/-- Result shape of the limit checks in `src/api/limits.ts`. -/
structure LimitCheck : Type where
  exceeded : Bool
  current : Nat
  limit : Option Nat
  deriving DecidableEq, Repr

/-- Embeds `checkMonthlyQuota` from `src/api/limits.ts` lines 23–59 (same semantics
as SQL `check_monthly_quota` in migration 002): `monthly_limit` NULL ⇒
allowed with current 0; otherwise current = sum of this period's usage
counts across message types, `exceeded ⟺ current ≥ limit`.  Read-only.
`none` models the thrown `Project not found`. -/
def checkMonthlyQuota (st : DBState) (projectId : Nat) (period : String) :
    Option LimitCheck :=
  match st.projects.find? (fun p => p.id == projectId) with
  | none => none
  | some p =>
    match p.monthly_limit with
    | none => some ⟨false, 0, none⟩
    | some monthlyLimit =>
      let currentUsage :=
        ((st.usage.filter (fun u => u.project_id == projectId && u.period == period)).map
          UsageRow.count).sum
      some ⟨decide (monthlyLimit ≤ currentUsage), currentUsage, some monthlyLimit⟩

/-- Embeds `minuteWindow.setSeconds(0, 0)` (`limits.ts` lines 95–96): wall clock
truncated to the minute. -/
def truncMinute (nowMs : Nat) : Nat := nowMs / 60000 * 60000

/-- The atomic upsert statement of the rate limiter (`limits.ts` lines
100–107, same as SQL `check_rate_limit` in migration 002):
`INSERT (project_id, minute_window, count) VALUES ($1, $2, 1) ON CONFLICT DO
UPDATE SET count = count + 1 RETURNING count`.  Returns the new count and
the updated table. -/
def upsertRate (buckets : List RateRow) (projectId w : Nat) : Nat × List RateRow :=
  match buckets.find? (fun b => b.project_id == projectId && b.minute_window == w) with
  | some b =>
    (b.count + 1,
      buckets.map (fun bb =>
        if bb.project_id == projectId && bb.minute_window == w then
          { bb with count := bb.count + 1 }
        else bb))
  | none => (1, buckets ++ [⟨projectId, w, 1⟩])

/-- Embeds `checkRateLimit` from `src/api/limits.ts` lines 68–124 (same semantics as
SQL `check_rate_limit` in migration 002): `rate_limit_per_minute` NULL ⇒
allowed with no side effect; otherwise atomic upsert of the
`(project_id, truncMinute now)` bucket incrementing `count`, and
`exceeded ⟺ new count > limit`.  Returns the verdict and the updated
bucket table; `none` models the thrown `Project not found`. -/
def checkRateLimit (st : DBState) (projectId : Nat) (nowMs : Nat) :
    Option (LimitCheck × List RateRow) :=
  match st.projects.find? (fun p => p.id == projectId) with
  | none => none
  | some p =>
    match p.rate_limit_per_minute with
    | none => some (⟨false, 0, none⟩, st.rate_buckets)
    | some rateLimit =>
      let w := truncMinute nowMs
      let r := upsertRate st.rate_buckets projectId w
      some (⟨decide (rateLimit < r.1), r.1, some rateLimit⟩, r.2)

/-- Result row of SQL `create_message_with_event` (migration 009). -/
structure RpcRow : Type where
  message_id : Nat
  status : String
  is_duplicate : Bool
  deriving DecidableEq, Repr

/-- The row the `INSERT INTO messages (project_id, type, status,
from_address, to_address, subject, body, idempotency_key)` of migration 009
creates: `status` is inserted as `'queued'`; the columns missing from the
insert list take their defaults from migrations 001/003 — `attempts = 0`,
`max_attempts = 3`, `next_attempt_at = NULL`, `created_at = NOW()`. -/
def insertedMsg (newId nowMs : Nat) (p_project_id : Nat)
    (p_type p_from p_to : String) (p_subject : Option String) (p_body : String)
    (p_idempotency_key : Option String) : Msg :=
  { id := newId, project_id := p_project_id, type := p_type,
    status := MsgStatus.queued, from_address := p_from, to_address := p_to,
    subject := p_subject, body := p_body,
    idempotency_key := p_idempotency_key, attempts := 0, max_attempts := 3,
    next_attempt_at := none, created_at := nowMs }

/-- SQL `create_message_with_event` from migration 009 lines 4–45, run at
read-committed isolation.  The idempotency `SELECT` sees `st.messages`;
`concurrent` is the set of message rows committed by other transactions
between that read and this transaction's `INSERT`, which the unique partial
index `(project_id, idempotency_key)` does see — the function body has no
exception handler, so a unique violation aborts the whole transaction
(`Except.error`, state unchanged).  `newId`/`eventId` are the ids the
database assigns to the fresh rows; column defaults from migrations
001/003 fill `status='queued'`, `attempts=0`, `max_attempts=3`,
`next_attempt_at=NULL`. -/
def create_message_with_event (st : DBState) (concurrent : List Msg)
    (newId eventId nowMs : Nat) (p_project_id : Nat) (p_type p_from p_to : String)
    (p_subject : Option String) (p_body : String) (p_idempotency_key : Option String) :
    Except String (DBState × RpcRow) :=
  let dup : Option Msg :=
    match p_idempotency_key with
    | none => none
    | some k => st.messages.find? (fun m =>
        m.project_id == p_project_id && m.idempotency_key == some k)
  match dup with
  | some existing => Except.ok (st, ⟨existing.id, "queued", true⟩)
  | none =>
    let uniqueViolation :=
      match p_idempotency_key with
      | none => false
      | some k => (st.messages ++ concurrent).any (fun m =>
          m.project_id == p_project_id && m.idempotency_key == some k)
    if uniqueViolation then
      Except.error "duplicate key value violates unique constraint"
    else
      let newMsg : Msg :=
        insertedMsg newId nowMs p_project_id p_type p_from p_to p_subject p_body
          p_idempotency_key
      Except.ok
        ({ st with
           messages := st.messages ++ [newMsg],
           events := st.events ++
             [⟨eventId, newId, p_project_id, EventType.requested, none, nowMs⟩] },
         ⟨newId, "queued", false⟩)

/-- HTTP responses of `POST /v1/messages` (`server.ts` lines 49–196). -/
inductive ApiResponse : Type where
  | validationError                          -- 400
  | internalError                            -- 500
  | projectSuspended                         -- 403
  | quotaExceeded (limit current : Nat)      -- 429 monthly_quota_exceeded
  | rateLimitExceeded (limit current : Nat)  -- 429 rate_limit_exceeded
  | duplicate (message_id : Nat) (status : MsgStatus)  -- 200, duplicate:true
  | accepted (message_id : Nat)              -- 202, status:"queued"
  deriving DecidableEq, Repr

/-- JS truthiness of the optional `idempotency_key` body field
(`if (idempotency_key)`): absent and empty-string keys are falsy. -/
def keyTruthy (k : Option String) : Bool :=
  match k with
  | none => false
  | some s => s ≠ ""

/-- Embeds `idempotency_key || null` (`server.ts` line 168). -/
def normKey (k : Option String) : Option String :=
  if keyTruthy k then k else none

/-- The `POST /v1/messages` handler from `src/api/server.ts` lines 49–196:
validation, suspension check, `checkMonthlyQuota`, `checkRateLimit`
(consumes a token), fast-path idempotency read, then the
`create_message_with_event` RPC.  A thrown error anywhere (including the
RPC's unique violation) lands in the catch and returns 500; the RPC's own
transaction is the only state the throw rolls back, the already-committed
rate-bucket increment stays. -/
def postMessages (st : DBState) (concurrent : List Msg) (nowMs : Nat)
    (period : String) (newId eventId : Nat) (projectId : Nat)
    (reqTo reqFrom : String) (reqSubject : Option String) (reqBody : String)
    (reqKey : Option String) : ApiResponse × DBState :=
  if reqTo = "" ∨ reqFrom = "" ∨ reqBody = "" then
    (ApiResponse.validationError, st)
  else
    match st.projects.find? (fun p => p.id == projectId) with
    | none => (ApiResponse.internalError, st)
    | some proj =>
      if proj.status == ProjStatus.suspended then
        (ApiResponse.projectSuspended, st)
      else
        match checkMonthlyQuota st projectId period with
        | none => (ApiResponse.internalError, st)
        | some quota =>
          if quota.exceeded then
            (ApiResponse.quotaExceeded (quota.limit.getD 0) quota.current, st)
          else
            match checkRateLimit st projectId nowMs with
            | none => (ApiResponse.internalError, st)
            | some (rate, buckets) =>
              let st1 := { st with rate_buckets := buckets }
              if rate.exceeded then
                (ApiResponse.rateLimitExceeded (rate.limit.getD 0) rate.current, st1)
              else
                let fastDup : Option Msg :=
                  if keyTruthy reqKey then
                    st1.messages.find? (fun m =>
                      m.project_id == projectId && m.idempotency_key == reqKey)
                  else none
                match fastDup with
                | some existing =>
                    (ApiResponse.duplicate existing.id existing.status, st1)
                | none =>
                  match create_message_with_event st1 concurrent newId eventId nowMs
                      projectId "email" reqFrom reqTo reqSubject reqBody
                      (normKey reqKey) with
                  | Except.error _ => (ApiResponse.internalError, st1)
                  | Except.ok (st2, row) => (ApiResponse.accepted row.message_id, st2)

/-! ## Observation functions (read-only views of the state used in
statements; they translate the corresponding SQL reads). -/

/-- Current count of the `(project_id, minute_window)` rate bucket (0 when
the row does not exist yet). -/
def bucketCount (buckets : List RateRow) (pid w : Nat) : Nat :=
  match buckets.find? (fun b => b.project_id == pid && b.minute_window == w) with
  | some b => b.count
  | none => 0

/-- Sum of `usage.count` over rows with the given key (the bucket's count,
summed in case of duplicates). -/
def usageCount (usage : List UsageRow) (pid : Nat) (period ch : String) : Nat :=
  ((usage.filter (usageKey pid period ch)).map UsageRow.count).sum

/-- Number of `delivered` events recorded for a project. -/
def deliveredEventCount (events : List Event) (pid : Nat) : Nat :=
  (events.filter (fun e =>
    e.event_type == EventType.delivered && e.project_id == pid)).length

/-- Number of message rows carrying a given `(project_id, idempotency_key)`. -/
def keyCount (msgs : List Msg) (pid : Nat) (k : String) : Nat :=
  (msgs.filter (fun m => m.project_id == pid && m.idempotency_key == some k)).length

/-! ## Concrete fixtures for witnesses and counterexamples. -/

/-- An active project with no limits. -/
def exProject : Project := ⟨1, ProjStatus.active, none, none⟩

/-- A freshly accepted email message for `exProject`. -/
def exMsg : Msg :=
  { id := 1, project_id := 1, type := "email", status := MsgStatus.queued,
    from_address := "b@y", to_address := "a@x", subject := none, body := "hi",
    idempotency_key := none, attempts := 0, max_attempts := 3,
    next_attempt_at := none, created_at := 10 }

/-- A one-project, one-queued-message database. -/
def exState : DBState := ⟨[exProject], [exMsg], [], [], []⟩

/-! ## C1 — retry backoff schedule -/

/-- C1: the claim says the n-th failure schedules the next attempt
`[1,5,30,300,1800][min(n-1,4)]` seconds out (1s after the first failure).
The dispatcher calls `calculateBackoff(message.attempts + 1)` where
`message.attempts` is the pre-increment counter, so the n-th failure gets
`[1,5,30,300,1800][min(n,4)]` seconds: every failure is given the delay the
claim assigns to the (n+1)-st failure, and in particular the first failure
waits 5 seconds, not 1 (which matches the spec's own §9 note and contradicts
the worker's doc comment `Attempts: 1s, 5s, 30s, 5m, 30m`).  The last
conjunct evaluates the full dispatcher step on a first-failure message:
`next_attempt_at` lands 5000 ms (not 1000 ms) after `now`. -/
theorem backoff_first_failure_is_five_seconds :
    (∀ a : Nat, calculateBackoff (a + 1) = specBackoff (a + 2)) ∧
    calculateBackoff (0 + 1) = 5 ∧ specBackoff 1 = 1 ∧
    (processMessage exState 100000 "2026-10" 7 exMsg
        (ProviderOutcome.result false true [] none)).messages.map Msg.next_attempt_at
      = [some 105000] := by
  refine ⟨?_, by decide, by decide, by decide⟩
  intro a
  show ([1, 5, 30, 300, 1800] : List Nat).getD (min (a + 1) ([1, 5, 30, 300, 1800].length - 1)) 0
    = ([1, 5, 30, 300, 1800] : List Nat).getD (min (a + 2 - 1) 4) 0
  norm_num

/-! ## C5 — the claim query -/

/-- C5: `dequeue_messages` selects only messages that are `queued` and
due (`next_attempt_at` NULL or ≤ now), skipping locked rows, at most
`batch_size` of them, in `created_at`-ascending order; in particular a
message with `next_attempt_at > now()` or a terminal status is never
claimed. -/
theorem dequeue_claims_only_due_queued (msgs : List Msg) (locked : List Nat)
    (nowMs batch : Nat) :
    (∀ m ∈ dequeue_messages msgs locked nowMs batch,
        m ∈ msgs ∧ m.status = MsgStatus.queued ∧
        (∀ t, m.next_attempt_at = some t → t ≤ nowMs) ∧
        ¬ m.id ∈ locked) ∧
    (dequeue_messages msgs locked nowMs batch).length ≤ batch ∧
    (dequeue_messages msgs locked nowMs batch).Sorted createdLe := by
  refine ⟨?_, ?_, ?_⟩
  · intro m hm
    have hm' := List.mem_of_mem_take hm
    rw [List.mem_filter] at hm'
    obtain ⟨hmem, hp⟩ := hm'
    rw [Bool.and_eq_true] at hp
    obtain ⟨hready, hnl⟩ := hp
    unfold messageReady at hready
    rw [Bool.and_eq_true] at hready
    obtain ⟨hstat, hdue⟩ := hready
    refine ⟨(List.mem_insertionSort createdLe).mp hmem, by simpa using hstat, ?_, ?_⟩
    · intro t ht
      rw [ht] at hdue
      simpa using hdue
    · simp at hnl
      exact hnl
  · exact List.length_take_le _ _
  · have hs := List.sorted_insertionSort createdLe msgs
    have hf := List.Pairwise.filter
      (fun m => messageReady nowMs m && !(locked.contains m.id)) hs
    exact List.Pairwise.sublist (List.take_sublist batch _) hf

/-- Witness for C5: on a concrete three-message table (one due, one
scheduled in the future, one delivered) with batch size 2 and a lock on an
unrelated id, the theorem applies to the claimed message. -/
theorem dequeue_claims_only_due_queued_witness :
    exMsg ∈ [exMsg,
        { exMsg with id := 2, next_attempt_at := some 999999, created_at := 1 },
        { exMsg with id := 3, status := MsgStatus.delivered, created_at := 2 }] ∧
      exMsg.status = MsgStatus.queued ∧
      (∀ t, exMsg.next_attempt_at = some t → t ≤ 50) ∧ ¬ exMsg.id ∈ [9] :=
  (dequeue_claims_only_due_queued
    [exMsg,
     { exMsg with id := 2, next_attempt_at := some 999999, created_at := 1 },
     { exMsg with id := 3, status := MsgStatus.delivered, created_at := 2 }]
    [9] 50 2).1 exMsg (by decide)

/-! ## C8 — rate limiter -/

/-- Incrementing the count of every row matching the bucket key commutes
with `find?` for that key (the key fields are untouched). -/
theorem find?_incr_map (buckets : List RateRow) (pid w : Nat) :
    (buckets.map (fun bb =>
        if bb.project_id == pid && bb.minute_window == w then
          { bb with count := bb.count + 1 } else bb)).find?
      (fun b => b.project_id == pid && b.minute_window == w)
    = (buckets.find? (fun b => b.project_id == pid && b.minute_window == w)).map
        (fun b => { b with count := b.count + 1 }) := by
  induction buckets with
  | nil => rfl
  | cons hd tl ih =>
    simp only [List.map_cons]
    cases h : (hd.project_id == pid && hd.minute_window == w) with
    | true =>
      rw [if_pos rfl, List.find?_cons, List.find?_cons]
      simp only [h]
      rfl
    | false =>
      rw [if_neg (by simp), List.find?_cons, List.find?_cons]
      simp only [h]
      exact ih

/-- The rate-limit upsert returns the key's new count, and that count is one
more than before the call. -/
theorem upsertRate_count (buckets : List RateRow) (pid w : Nat) :
    (upsertRate buckets pid w).1 = bucketCount buckets pid w + 1 ∧
    bucketCount (upsertRate buckets pid w).2 pid w
      = bucketCount buckets pid w + 1 := by
  unfold upsertRate bucketCount
  cases hf : buckets.find? (fun b => b.project_id == pid && b.minute_window == w) with
  | none =>
    refine ⟨rfl, ?_⟩
    simp only [List.find?_append, hf, Option.none_or]
    rw [List.find?_cons_of_pos _ (by simp)]
  | some b =>
    refine ⟨rfl, ?_⟩
    simp only [find?_incr_map, hf, Option.map_some']

/-- C8: with `rate_limit_per_minute` NULL the acquire is allowed and has
no side effect; otherwise it upserts the `(project, minute-truncated now)`
bucket incrementing its count by 1 — also on a rejected call — and reports
`exceeded` exactly when the new count strictly exceeds the limit. -/
theorem rate_limit_acquire (st : DBState) (pid nowMs : Nat) (p : Project)
    (hfind : st.projects.find? (fun q => q.id == pid) = some p) :
    (p.rate_limit_per_minute = none →
        checkRateLimit st pid nowMs = some (⟨false, 0, none⟩, st.rate_buckets)) ∧
    (∀ L, p.rate_limit_per_minute = some L →
        ∃ res buckets,
          checkRateLimit st pid nowMs = some (res, buckets) ∧
          res.limit = some L ∧
          res.current = bucketCount st.rate_buckets pid (truncMinute nowMs) + 1 ∧
          bucketCount buckets pid (truncMinute nowMs)
            = bucketCount st.rate_buckets pid (truncMinute nowMs) + 1 ∧
          (res.exceeded = true ↔ L < res.current)) := by
  constructor
  · intro h
    simp only [checkRateLimit, hfind, h]
  · intro L hL
    have hc := upsertRate_count st.rate_buckets pid (truncMinute nowMs)
    refine ⟨⟨decide (L < (upsertRate st.rate_buckets pid (truncMinute nowMs)).1),
        (upsertRate st.rate_buckets pid (truncMinute nowMs)).1, some L⟩,
      (upsertRate st.rate_buckets pid (truncMinute nowMs)).2, ?_, rfl, hc.1, hc.2, ?_⟩
    · simp only [checkRateLimit, hfind, hL]
    · simp [hc.1]

/-- Witness for C8: four acquires in the same minute against limit 3 — the
first three allowed, the fourth rejected with current 4 and the bucket left
at count 4; the theorem applies to the fourth call. -/
theorem rate_limit_acquire_witness :
    (∃ res buckets,
        checkRateLimit ⟨[⟨1, ProjStatus.active, none, some 3⟩], [], [], [],
            [⟨1, 60000, 3⟩]⟩ 1 89000 = some (res, buckets) ∧
        res.limit = some 3 ∧
        res.current = bucketCount [⟨1, 60000, 3⟩] 1 (truncMinute 89000) + 1 ∧
        bucketCount buckets 1 (truncMinute 89000)
          = bucketCount [⟨1, 60000, 3⟩] 1 (truncMinute 89000) + 1 ∧
        (res.exceeded = true ↔ 3 < res.current)) ∧
    checkRateLimit ⟨[⟨1, ProjStatus.active, none, some 3⟩], [], [], [], []⟩ 1 65000
      = some (⟨false, 1, some 3⟩, [⟨1, 60000, 1⟩]) ∧
    checkRateLimit ⟨[⟨1, ProjStatus.active, none, some 3⟩], [], [], [],
        [⟨1, 60000, 1⟩]⟩ 1 70000
      = some (⟨false, 2, some 3⟩, [⟨1, 60000, 2⟩]) ∧
    checkRateLimit ⟨[⟨1, ProjStatus.active, none, some 3⟩], [], [], [],
        [⟨1, 60000, 2⟩]⟩ 1 75000
      = some (⟨false, 3, some 3⟩, [⟨1, 60000, 3⟩]) ∧
    checkRateLimit ⟨[⟨1, ProjStatus.active, none, some 3⟩], [], [], [],
        [⟨1, 60000, 3⟩]⟩ 1 89000
      = some (⟨true, 4, some 3⟩, [⟨1, 60000, 4⟩]) :=
  ⟨(rate_limit_acquire ⟨[⟨1, ProjStatus.active, none, some 3⟩], [], [], [],
      [⟨1, 60000, 3⟩]⟩ 1 89000 ⟨1, ProjStatus.active, none, some 3⟩ (by decide)).2
    3 rfl,
   by decide, by decide, by decide, by decide⟩

/-! ## C6 — suspended projects are skipped without touching the message -/

/-- C6: when the claimed message's project is suspended at processing
time, the dispatcher appends exactly one `skipped` event with reason
`Project suspended` and changes nothing else: the whole new state is the
old state with that one event appended, so the message row (status,
attempts, `next_attempt_at`) is untouched and the message remains
claimable on later polls. -/
theorem suspended_project_only_skipped_event (st : DBState) (nowMs : Nat)
    (period : String) (eventId : Nat) (m : Msg) (outcome : ProviderOutcome)
    (hsusp : projectSuspendedIn st.projects m.project_id = true) :
    processMessage st nowMs period eventId m outcome =
      { st with events := st.events ++
          [⟨eventId, m.id, m.project_id, EventType.skipped,
            some [("reason", JsonVal.str "Project suspended")], nowMs⟩] } ∧
    (processMessage st nowMs period eventId m outcome).messages = st.messages ∧
    (processMessage st nowMs period eventId m outcome).usage = st.usage := by
  have h : processMessage st nowMs period eventId m outcome =
      { st with events := st.events ++
          [⟨eventId, m.id, m.project_id, EventType.skipped,
            some [("reason", JsonVal.str "Project suspended")], nowMs⟩] } := by
    unfold processMessage
    rw [hsusp]
    rfl
  exact ⟨h, by rw [h], by rw [h]⟩

/-- Witness for C6: concrete suspended project, the dispatcher step only
appends the skipped event. -/
theorem suspended_project_only_skipped_event_witness :
    processMessage ⟨[⟨1, ProjStatus.suspended, none, none⟩], [exMsg], [], [], []⟩
        500 "2026-10" 4 exMsg (ProviderOutcome.result true false [] none) =
      { projects := [⟨1, ProjStatus.suspended, none, none⟩], messages := [exMsg],
        events := [⟨4, 1, 1, EventType.skipped,
          some [("reason", JsonVal.str "Project suspended")], 500⟩],
        usage := [], rate_buckets := [] } ∧
    (processMessage ⟨[⟨1, ProjStatus.suspended, none, none⟩], [exMsg], [], [], []⟩
        500 "2026-10" 4 exMsg (ProviderOutcome.result true false [] none)).messages
      = [exMsg] ∧
    (processMessage ⟨[⟨1, ProjStatus.suspended, none, none⟩], [exMsg], [], [], []⟩
        500 "2026-10" 4 exMsg (ProviderOutcome.result true false [] none)).usage
      = [] :=
  suspended_project_only_skipped_event
    ⟨[⟨1, ProjStatus.suspended, none, none⟩], [exMsg], [], [], []⟩
    500 "2026-10" 4 exMsg (ProviderOutcome.result true false [] none) (by decide)

/-! ## Helper lemmas about `updateMsg`. -/

/-- Projecting a field out of an `UPDATE ... WHERE id` row map. -/
theorem updateMsg_map_proj {β : Type} (l : List Msg) (mid : Nat) (f : Msg → Msg)
    (g : Msg → β) :
    (updateMsg l mid f).map g
      = l.map (fun mm => if mm.id == mid then g (f mm) else g mm) := by
  unfold updateMsg
  rw [List.map_map]
  exact List.map_congr_left (fun mm _ => by
    by_cases h : mm.id = mid <;> simp [h])

/-- Two successive `UPDATE ... WHERE id` statements on the same row compose
when the first preserves the id. -/
theorem updateMsg_updateMsg (l : List Msg) (mid : Nat) (f g : Msg → Msg)
    (hf : ∀ mm, (f mm).id = mm.id) :
    updateMsg (updateMsg l mid f) mid g = updateMsg l mid (fun mm => g (f mm)) := by
  unfold updateMsg
  rw [List.map_map]
  exact List.map_congr_left (fun mm _ => by
    by_cases h : mm.id = mid
    · simp [Function.comp, h, hf]
    · simp [Function.comp, h])

/-- Membership in an `updateMsg` result comes from a row of the table. -/
theorem mem_updateMsg (l : List Msg) (mid : Nat) (f : Msg → Msg) (x : Msg)
    (hx : x ∈ updateMsg l mid f) :
    ∃ mm ∈ l, x = if mm.id == mid then f mm else mm := by
  unfold updateMsg at hx
  obtain ⟨mm, hmm, hval⟩ := List.mem_map.mp hx
  exact ⟨mm, hmm, hval.symm⟩

/-! ## C7 — attempt accounting -/

/-- Dead-letter branch of the dispatcher (`worker.ts` lines 128–154): an
unsuspended message at or over its ceiling is marked `dead` with a `dead`
event and nothing else changes. -/
theorem processMessage_dead_branch (st : DBState) (nowMs : Nat) (period : String)
    (eventId : Nat) (m : Msg) (outcome : ProviderOutcome)
    (hns : projectSuspendedIn st.projects m.project_id = false)
    (hcap : m.max_attempts ≤ m.attempts) :
    processMessage st nowMs period eventId m outcome =
      { st with
        messages := updateMsg st.messages m.id
          (fun mm => { mm with status := MsgStatus.dead }),
        events := st.events ++
          [⟨eventId, m.id, m.project_id, EventType.dead,
            some [("reason", JsonVal.str "Max attempts exceeded"),
                  ("attempts", JsonVal.num (Int.ofNat m.attempts))], nowMs⟩] } := by
  unfold processMessage
  rw [hns, if_neg (by simp), if_pos hcap]

/-- The `SET next_attempt_at = $1` part of the retry path, as a row rewrite. -/
def setNextAttempt (t : Nat) (mm : Msg) : Msg := { mm with next_attempt_at := some t }

/-- In the processing branch (unsuspended, below the ceiling) the message
table becomes a single `UPDATE`: the claimed row gets `attempts + 1` and
then one attempts/max/id-preserving rewrite chosen by the branch taken. -/
theorem processMessage_messages_shape (st : DBState) (nowMs : Nat) (period : String)
    (eventId : Nat) (m : Msg) (outcome : ProviderOutcome)
    (hns : projectSuspendedIn st.projects m.project_id = false)
    (hlt : m.attempts < m.max_attempts) :
    ∃ f2 : Msg → Msg,
      (∀ mm, (f2 mm).attempts = mm.attempts ∧ (f2 mm).max_attempts = mm.max_attempts ∧
        (f2 mm).id = mm.id) ∧
      (processMessage st nowMs period eventId m outcome).messages
        = updateMsg st.messages m.id
            (fun mm => f2 { mm with attempts := mm.attempts + 1 }) := by
  unfold processMessage
  rw [hns, if_neg (by simp), if_neg (by omega)]
  have hcomp := fun f2 => updateMsg_updateMsg st.messages m.id
    (fun mm => { mm with attempts := mm.attempts + 1 }) f2 (fun mm => rfl)
  cases hprov : getProvider m.type with
  | error e =>
    refine ⟨setNextAttempt (nowMs + calculateBackoff (m.attempts + 1) * 1000),
      fun mm => ⟨rfl, rfl, rfl⟩, ?_⟩
    simp only [scheduleRetry, setNextAttempt]
    exact hcomp _
  | ok u =>
    cases outcome with
    | exn e =>
      refine ⟨setNextAttempt (nowMs + calculateBackoff (m.attempts + 1) * 1000),
        fun mm => ⟨rfl, rfl, rfl⟩, ?_⟩
      simp only [scheduleRetry, setNextAttempt]
      exact hcomp _
    | result success retryable resp em =>
      cases success with
      | true =>
        exact ⟨fun mm => { mm with status := MsgStatus.delivered },
          fun mm => ⟨rfl, rfl, rfl⟩, hcomp _⟩
      | false =>
        cases retryable with
        | true =>
          refine ⟨setNextAttempt (nowMs + calculateBackoff (m.attempts + 1) * 1000),
            fun mm => ⟨rfl, rfl, rfl⟩, ?_⟩
          simp only [scheduleRetry, setNextAttempt]
          exact hcomp _
        | false =>
          exact ⟨fun mm => { mm with status := MsgStatus.failed },
            fun mm => ⟨rfl, rfl, rfl⟩, hcomp _⟩

/-- Pointwise `≤` between two maps over the same list. -/
theorem forall₂_le_map (l : List Msg) (f g : Msg → Nat) (h : ∀ x ∈ l, f x ≤ g x) :
    List.Forall₂ (fun a b => a ≤ b) (l.map f) (l.map g) := by
  induction l with
  | nil => exact List.Forall₂.nil
  | cons hd tl ih =>
    exact List.Forall₂.cons (h hd (by simp))
      (ih (fun x hx => h x (List.mem_cons_of_mem hd hx)))

/-- C7: for an unsuspended project, a claimed message at or over its
`max_attempts` is transitioned to `dead` with the `dead` event payload
`{reason: "Max attempts exceeded", attempts}` and no attempts change;
below the ceiling the dispatcher increments the claimed row's `attempts` by
exactly 1; attempts are pointwise non-decreasing across the step; and under
the claim-lock snapshot agreement the invariant `attempts ≤ max_attempts`
is preserved. -/
theorem attempts_monotone_never_exceed (st : DBState) (nowMs : Nat)
    (period : String) (eventId : Nat) (m : Msg) (outcome : ProviderOutcome)
    (hns : projectSuspendedIn st.projects m.project_id = false) :
    (m.max_attempts ≤ m.attempts →
      processMessage st nowMs period eventId m outcome =
        { st with
          messages := updateMsg st.messages m.id
            (fun mm => { mm with status := MsgStatus.dead }),
          events := st.events ++
            [⟨eventId, m.id, m.project_id, EventType.dead,
              some [("reason", JsonVal.str "Max attempts exceeded"),
                    ("attempts", JsonVal.num (Int.ofNat m.attempts))], nowMs⟩] }) ∧
    (m.attempts < m.max_attempts →
      (processMessage st nowMs period eventId m outcome).messages.map Msg.attempts
        = st.messages.map
            (fun mm => if mm.id == m.id then mm.attempts + 1 else mm.attempts)) ∧
    List.Forall₂ (fun a b => a ≤ b)
      (st.messages.map Msg.attempts)
      ((processMessage st nowMs period eventId m outcome).messages.map Msg.attempts) ∧
    ((∀ mm ∈ st.messages, mm.id = m.id →
        mm.attempts = m.attempts ∧ mm.max_attempts = m.max_attempts) →
      (∀ mm ∈ st.messages, mm.attempts ≤ mm.max_attempts) →
      ∀ mm ∈ (processMessage st nowMs period eventId m outcome).messages,
        mm.attempts ≤ mm.max_attempts) := by
  by_cases hcap : m.max_attempts ≤ m.attempts
  · have hd := processMessage_dead_branch st nowMs period eventId m outcome hns hcap
    refine ⟨fun _ => hd, fun hlt => absurd hcap (by omega), ?_, ?_⟩
    · rw [hd]
      simp only
      rw [updateMsg_map_proj]
      exact forall₂_le_map _ _ _ (fun x _ => by by_cases h : x.id = m.id <;> simp [h])
    · intro _ hall mm hmm
      rw [hd] at hmm
      simp only at hmm
      obtain ⟨mm0, hmm0, heq⟩ := mem_updateMsg _ _ _ _ hmm
      by_cases h : mm0.id = m.id
      · rw [heq, if_pos (by simp [h])]
        exact hall mm0 hmm0
      · rw [heq, if_neg (by simp [h])]
        exact hall mm0 hmm0
  · have hlt : m.attempts < m.max_attempts := by omega
    obtain ⟨f2, hf2, hshape⟩ :=
      processMessage_messages_shape st nowMs period eventId m outcome hns hlt
    have hmap : (processMessage st nowMs period eventId m outcome).messages.map
        Msg.attempts
        = st.messages.map
            (fun mm => if mm.id == m.id then mm.attempts + 1 else mm.attempts) := by
      rw [hshape, updateMsg_map_proj]
      exact List.map_congr_left (fun mm _ => by
        by_cases h : mm.id = m.id <;> simp [h, (hf2 _).1])
    refine ⟨fun hc => absurd hc (by omega), fun _ => hmap, ?_, ?_⟩
    · rw [hmap]
      exact forall₂_le_map _ _ _ (fun x _ => by by_cases h : x.id = m.id <;> simp [h])
    · intro hsnap hall mm hmm
      rw [hshape] at hmm
      obtain ⟨mm0, hmm0, heq⟩ := mem_updateMsg _ _ _ _ hmm
      by_cases h : mm0.id = m.id
      · rw [heq, if_pos (by simp [h])]
        have h1 := (hf2 { mm0 with attempts := mm0.attempts + 1 }).1
        have h2 := (hf2 { mm0 with attempts := mm0.attempts + 1 }).2.1
        rw [h1, h2]
        obtain ⟨ha, hb⟩ := hsnap mm0 hmm0 h
        show mm0.attempts + 1 ≤ mm0.max_attempts
        omega
      · rw [heq, if_neg (by simp [h])]
        exact hall mm0 hmm0

/-- Witness for C7: on a concrete state, the theorem applies — the
at-ceiling message goes `dead` (first conjunct at `attempts = 3`). -/
theorem attempts_monotone_never_exceed_witness :
    processMessage ⟨[exProject], [{ exMsg with attempts := 3 }], [], [], []⟩
        700 "2026-10" 9 { exMsg with attempts := 3 }
        (ProviderOutcome.result false true [] none) =
      { projects := [exProject],
        messages := updateMsg [{ exMsg with attempts := 3 }] 1
          (fun mm => { mm with status := MsgStatus.dead }),
        events := [⟨9, 1, 1, EventType.dead,
          some [("reason", JsonVal.str "Max attempts exceeded"),
                ("attempts", JsonVal.num 3)], 700⟩],
        usage := [], rate_buckets := [] } :=
  (attempts_monotone_never_exceed
    ⟨[exProject], [{ exMsg with attempts := 3 }], [], [], []⟩
    700 "2026-10" 9 { exMsg with attempts := 3 }
    (ProviderOutcome.result false true [] none) (by decide)).1 (by decide)

/-! ## C9 — failure classification -/

/-- Spreading `{..., k: v}` makes `k` read back as `v`. -/
theorem jsonGet_spread_last (a : JsonObj) (k : String) (v : JsonVal) :
    jsonGet (spreadJson a [(k, v)]) k = some v := by
  unfold jsonGet spreadJson
  rw [List.reverse_append, List.find?_append]
  simp

/-- The caught-exception payload reads back `retryable: true`. -/
theorem jsonGet_exnPayload_retryable (e : String) (nowMs b : Nat) :
    jsonGet (exnPayload e nowMs b) "retryable" = some (JsonVal.boolean true) := by
  rfl

/-- C9: on the processing path, a provider verdict
`{success:false, retryable:false}` makes the message terminal `failed` with
a `failed` event whose payload carries `retryable: false`; an unsupported
channel type (the adapter factory throws before any provider call) is
handled by the catch path as a retryable transient failure: the message
keeps its status (stays `queued`), gets `next_attempt_at` scheduled, and a
`failed` event with `retryable: true` is appended — the step returns a
state normally rather than propagating the throw. -/
theorem failure_classification (st : DBState) (nowMs : Nat) (period : String)
    (eventId : Nat) (m : Msg) (resp : JsonObj) (em : Option String)
    (outcome : ProviderOutcome)
    (hns : projectSuspendedIn st.projects m.project_id = false)
    (hlt : m.attempts < m.max_attempts) :
    (m.type = "email" →
      processMessage st nowMs period eventId m
          (ProviderOutcome.result false false resp em) =
        { st with
          messages := updateMsg st.messages m.id
            (fun mm =>
              { mm with attempts := mm.attempts + 1, status := MsgStatus.failed }),
          events := st.events ++
            [⟨eventId, m.id, m.project_id, EventType.failed,
              some (spreadJson resp [("retryable", JsonVal.boolean false)]),
              nowMs⟩] } ∧
      jsonGet (spreadJson resp [("retryable", JsonVal.boolean false)]) "retryable"
        = some (JsonVal.boolean false)) ∧
    (m.type ≠ "email" →
      processMessage st nowMs period eventId m outcome =
        { st with
          messages := updateMsg st.messages m.id
            (fun mm =>
              { mm with attempts := mm.attempts + 1, next_attempt_at := some (nowMs + calculateBackoff (m.attempts + 1) * 1000) }),
          events := st.events ++
            [⟨eventId, m.id, m.project_id, EventType.failed,
              some (exnPayload ("Unsupported message type: " ++ m.type) nowMs
                (calculateBackoff (m.attempts + 1))), nowMs⟩] } ∧
      (processMessage st nowMs period eventId m outcome).messages.map Msg.status
        = st.messages.map Msg.status ∧
      jsonGet (exnPayload ("Unsupported message type: " ++ m.type) nowMs
        (calculateBackoff (m.attempts + 1))) "retryable"
        = some (JsonVal.boolean true)) := by
  constructor
  · intro htype
    have hok : getProvider m.type = Except.ok () := by
      simp [getProvider, htype]
    refine ⟨?_, jsonGet_spread_last resp "retryable" (JsonVal.boolean false)⟩
    have hmsgs := updateMsg_updateMsg st.messages m.id
      (fun mm => { mm with attempts := mm.attempts + 1 })
      (fun mm => { mm with status := MsgStatus.failed }) (fun _ => rfl)
    unfold processMessage
    rw [hns, if_neg (by simp), if_neg (by omega), hok]
    exact congrArg (fun ms => DBState.mk st.projects ms
      (st.events ++
        [⟨eventId, m.id, m.project_id, EventType.failed,
          some (spreadJson resp [("retryable", JsonVal.boolean false)]), nowMs⟩])
      st.usage st.rate_buckets) hmsgs
  · intro htype
    have herr : getProvider m.type
        = Except.error ("Unsupported message type: " ++ m.type) := by
      simp [getProvider, htype]
    have hmsgs := updateMsg_updateMsg st.messages m.id
      (fun mm => { mm with attempts := mm.attempts + 1 })
      (setNextAttempt (nowMs + calculateBackoff (m.attempts + 1) * 1000))
      (fun _ => rfl)
    have hmain : processMessage st nowMs period eventId m outcome =
        { st with
          messages := updateMsg st.messages m.id
            (fun mm =>
              { mm with attempts := mm.attempts + 1, next_attempt_at := some (nowMs + calculateBackoff (m.attempts + 1) * 1000) }),
          events := st.events ++
            [⟨eventId, m.id, m.project_id, EventType.failed,
              some (exnPayload ("Unsupported message type: " ++ m.type) nowMs
                (calculateBackoff (m.attempts + 1))), nowMs⟩] } := by
      unfold processMessage
      rw [hns, if_neg (by simp), if_neg (by omega), herr]
      exact congrArg (fun ms => DBState.mk st.projects ms
        (st.events ++
          [⟨eventId, m.id, m.project_id, EventType.failed,
            some (exnPayload ("Unsupported message type: " ++ m.type) nowMs
              (calculateBackoff (m.attempts + 1))), nowMs⟩])
        st.usage st.rate_buckets) hmsgs
    refine ⟨hmain, ?_, jsonGet_exnPayload_retryable _ _ _⟩
    rw [hmain]
    simp only
    rw [updateMsg_map_proj]
    exact List.map_congr_left (fun mm _ => by
      by_cases h : mm.id = m.id <;> simp [h])

/-- Witness for C9: a concrete `sms` message is rescheduled (not crashed,
not terminal) with a retryable `failed` event, via the theorem's second
conjunct. -/
theorem failure_classification_witness :
    processMessage ⟨[exProject], [{ exMsg with type := "sms" }], [], [], []⟩
        2000 "2026-10" 6 { exMsg with type := "sms" }
        (ProviderOutcome.result true false [] none) =
      { projects := [exProject],
        messages := updateMsg [{ exMsg with type := "sms" }] 1
          (fun mm =>
            { mm with attempts := mm.attempts + 1, next_attempt_at := some (2000 + calculateBackoff (0 + 1) * 1000) }),
        events := [⟨6, 1, 1, EventType.failed,
          some (exnPayload ("Unsupported message type: " ++ "sms") 2000
            (calculateBackoff (0 + 1))), 2000⟩],
        usage := [], rate_buckets := [] } ∧
    (processMessage ⟨[exProject], [{ exMsg with type := "sms" }], [], [], []⟩
        2000 "2026-10" 6 { exMsg with type := "sms" }
        (ProviderOutcome.result true false [] none)).messages.map Msg.status
      = [{ exMsg with type := "sms" }].map Msg.status ∧
    jsonGet (exnPayload ("Unsupported message type: " ++ "sms") 2000
      (calculateBackoff (0 + 1))) "retryable" = some (JsonVal.boolean true) :=
  (failure_classification ⟨[exProject], [{ exMsg with type := "sms" }], [], [], []⟩
    2000 "2026-10" 6 { exMsg with type := "sms" } [] none
    (ProviderOutcome.result true false [] none) (by decide) (by decide)).2
    (by decide)

/-! ## C10 — usage accounting -/

/-- Inputs of one dispatcher iteration: the claimed row snapshot, the wall
clock, the event id the database will assign, and the provider verdict. -/
structure Step : Type where
  nowMs : Nat
  period : String
  eventId : Nat
  m : Msg
  outcome : ProviderOutcome
  deriving DecidableEq, Repr

/-- The dispatcher's per-poll loop over its claimed batch (`worker.ts`
lines 100–302), as a fold of the per-message body. -/
def runSteps (st : DBState) (steps : List Step) : DBState :=
  steps.foldl
    (fun s stp => processMessage s stp.nowMs stp.period stp.eventId stp.m stp.outcome)
    st

/-- The branch condition under which one iteration takes the delivered path
(project not suspended, below the attempt ceiling, supported channel,
provider verdict `success: true`) — read off the guards of `processBatch`. -/
def deliversCond (projects : List Project) (m : Msg) (outcome : ProviderOutcome) : Bool :=
  !(projectSuspendedIn projects m.project_id) &&
    decide (m.attempts < m.max_attempts) &&
    (match getProvider m.type with
     | Except.ok _ =>
       match outcome with
       | ProviderOutcome.result true _ _ _ => true
       | _ => false
     | Except.error _ => false)

/-- Steps of a trace that deliver for the given usage key. -/
def countDelivered (projects : List Project) (steps : List Step) (pid : Nat)
    (per ch : String) : Nat :=
  (steps.filter (fun s => deliversCond projects s.m s.outcome &&
    s.m.project_id == pid && s.period == per && s.m.type == ch)).length

/-- Steps of a trace that deliver for the given project. -/
def countDeliveredProj (projects : List Project) (steps : List Step) (pid : Nat) : Nat :=
  (steps.filter (fun s => deliversCond projects s.m s.outcome &&
    s.m.project_id == pid)).length

/-- The `usage` table's UNIQUE constraint: at most one row per key. -/
def usageWF (usage : List UsageRow) : Prop :=
  ∀ (pid : Nat) (per ch : String), (usage.filter (usageKey pid per ch)).length ≤ 1

/-- Summing the counts of rows all bumped by one. -/
theorem sum_map_count_incr (l : List UsageRow) :
    (l.map (fun u => UsageRow.count u + 1)).sum = (l.map UsageRow.count).sum + l.length := by
  induction l with
  | nil => rfl
  | cons hd tl ih =>
    simp only [List.map_cons, List.sum_cons, ih, List.length_cons]
    omega

/-- The conditional count bump commutes with filtering by any usage key. -/
theorem filter_map_incr (usage : List UsageRow) (pid : Nat) (per ch : String)
    (pid0 : Nat) (per0 ch0 : String) :
    (usage.map (fun u =>
        if usageKey pid per ch u then { u with count := u.count + 1 } else u)).filter
      (usageKey pid0 per0 ch0)
    = (usage.filter (usageKey pid0 per0 ch0)).map (fun u =>
        if usageKey pid per ch u then { u with count := u.count + 1 } else u) := by
  rw [List.filter_map]
  congr 1
  apply List.filter_congr
  intro u _
  by_cases h : usageKey pid per ch u = true
  · simp only [Function.comp, h, if_pos]
    unfold usageKey
    rfl
  · simp only [Function.comp, h, if_neg, Bool.false_eq_true, not_false_iff]

/-- A usage key met by the freshly inserted row forces key equality. -/
theorem usageKey_new_row (pid : Nat) (per ch : String) (pid0 : Nat) (per0 ch0 : String)
    (h : usageKey pid0 per0 ch0 ⟨pid, per, ch, 1⟩ = true) :
    pid = pid0 ∧ per = per0 ∧ ch = ch0 := by
  unfold usageKey at h
  simp only [Bool.and_eq_true, beq_iff_eq] at h
  exact ⟨h.1.1, h.1.2, h.2⟩

/-- Effect of the usage upsert on every bucket sum: its own key gains
exactly 1 (given the UNIQUE constraint), every other key is untouched. -/
theorem incrementUsage_usageCount (usage : List UsageRow) (pid : Nat) (per ch : String)
    (hwf : usageWF usage) (pid0 : Nat) (per0 ch0 : String) :
    usageCount (incrementUsage usage pid per ch) pid0 per0 ch0
      = usageCount usage pid0 per0 ch0
        + (if pid = pid0 ∧ per = per0 ∧ ch = ch0 then 1 else 0) := by
  unfold incrementUsage usageCount
  by_cases hany : usage.any (usageKey pid per ch) = true
  · rw [if_pos hany, filter_map_incr]
    by_cases hkey : pid = pid0 ∧ per = per0 ∧ ch = ch0
    · obtain ⟨h1, h2, h3⟩ := hkey
      subst h1; subst h2; subst h3
      rw [if_pos ⟨rfl, rfl, rfl⟩]
      have hmapeq : (usage.filter (usageKey pid per ch)).map (fun u =>
          if usageKey pid per ch u then { u with count := u.count + 1 } else u)
          = (usage.filter (usageKey pid per ch)).map
              (fun u => { u with count := u.count + 1 }) :=
        List.map_congr_left (fun u hu => by rw [if_pos (List.mem_filter.mp hu).2])
      rw [hmapeq, List.map_map]
      have hcnt : (usage.filter (usageKey pid per ch)).map
          (UsageRow.count ∘ fun u => { u with count := u.count + 1 })
          = (usage.filter (usageKey pid per ch)).map (fun u => UsageRow.count u + 1) :=
        List.map_congr_left (fun u _ => rfl)
      rw [hcnt, sum_map_count_incr]
      have hlen : (usage.filter (usageKey pid per ch)).length = 1 := by
        have hle := hwf pid per ch
        obtain ⟨u, hu, hp⟩ := List.any_eq_true.mp hany
        have hmem : u ∈ usage.filter (usageKey pid per ch) :=
          List.mem_filter.mpr ⟨hu, hp⟩
        have hpos : 0 < (usage.filter (usageKey pid per ch)).length :=
          List.length_pos.mpr (List.ne_nil_of_mem hmem)
        omega
      rw [hlen]
    · rw [if_neg hkey]
      have hfix : ∀ u ∈ usage.filter (usageKey pid0 per0 ch0),
          (if usageKey pid per ch u then { u with count := u.count + 1 } else u) = u := by
        intro u hu
        have h0 := (List.mem_filter.mp hu).2
        rw [if_neg]
        intro hcontra
        apply hkey
        unfold usageKey at h0 hcontra
        simp only [Bool.and_eq_true, beq_iff_eq] at h0 hcontra
        exact ⟨by rw [← hcontra.1.1, h0.1.1], by rw [← hcontra.1.2, h0.1.2],
          by rw [← hcontra.2, h0.2]⟩
      rw [List.map_congr_left hfix]
      simp
  · rw [if_neg hany, List.filter_append]
    have hnone : usage.filter (usageKey pid per ch) = [] := by
      rw [List.filter_eq_nil_iff]
      intro u hu hp
      exact hany (List.any_eq_true.mpr ⟨u, hu, hp⟩)
    by_cases hkey : pid = pid0 ∧ per = per0 ∧ ch = ch0
    · obtain ⟨h1, h2, h3⟩ := hkey
      subst h1; subst h2; subst h3
      rw [if_pos ⟨rfl, rfl, rfl⟩, hnone]
      have hrow : usageKey pid per ch ⟨pid, per, ch, 1⟩ = true := by
        unfold usageKey
        simp
      simp [hrow]
    · rw [if_neg hkey]
      have hrow : usageKey pid0 per0 ch0 ⟨pid, per, ch, 1⟩ = false := by
        rw [Bool.eq_false_iff]
        intro hcontra
        exact hkey (usageKey_new_row pid per ch pid0 per0 ch0 hcontra)
      simp [hrow]

/-- The usage upsert preserves the UNIQUE constraint. -/
theorem incrementUsage_WF (usage : List UsageRow) (pid : Nat) (per ch : String)
    (hwf : usageWF usage) : usageWF (incrementUsage usage pid per ch) := by
  intro pid0 per0 ch0
  unfold incrementUsage
  by_cases hany : usage.any (usageKey pid per ch) = true
  · rw [if_pos hany, filter_map_incr, List.length_map]
    exact hwf pid0 per0 ch0
  · rw [if_neg hany, List.filter_append, List.length_append]
    by_cases hkey : usageKey pid0 per0 ch0 ⟨pid, per, ch, 1⟩ = true
    · obtain ⟨h1, h2, h3⟩ := usageKey_new_row pid per ch pid0 per0 ch0 hkey
      subst h1; subst h2; subst h3
      have hnone : usage.filter (usageKey pid per ch) = [] := by
        rw [List.filter_eq_nil_iff]
        intro u hu hp
        exact hany (List.any_eq_true.mpr ⟨u, hu, hp⟩)
      simp [hnone, hkey]
    · have hkey' : usageKey pid0 per0 ch0 ⟨pid, per, ch, 1⟩ = false :=
        Bool.eq_false_iff.mpr hkey
      simp [hkey']
      exact hwf pid0 per0 ch0

/-- Appending one event shifts the delivered-event count by its own
contribution. -/
theorem deliveredEventCount_append (evs : List Event) (ev : Event) (pid : Nat) :
    deliveredEventCount (evs ++ [ev]) pid
      = deliveredEventCount evs pid
        + (if ev.event_type = EventType.delivered ∧ ev.project_id = pid
           then 1 else 0) := by
  unfold deliveredEventCount
  rw [List.filter_append, List.length_append]
  by_cases h1 : ev.event_type = EventType.delivered <;>
    by_cases h2 : ev.project_id = pid <;> simp [h1, h2]

/-- Frame of one dispatcher iteration: projects stay untouched, the usage
table changes exactly when the delivered branch runs (by its upsert), and
exactly one event is appended, for the message's project, of type
`delivered` exactly when the delivered branch runs. -/
theorem processMessage_effects (st : DBState) (nowMs : Nat) (period : String)
    (eventId : Nat) (m : Msg) (outcome : ProviderOutcome) :
    (processMessage st nowMs period eventId m outcome).projects = st.projects ∧
    (processMessage st nowMs period eventId m outcome).usage
      = (if deliversCond st.projects m outcome = true
         then incrementUsage st.usage m.project_id period m.type else st.usage) ∧
    ∃ ev : Event,
      (processMessage st nowMs period eventId m outcome).events = st.events ++ [ev] ∧
      ev.project_id = m.project_id ∧
      (ev.event_type = EventType.delivered
        ↔ deliversCond st.projects m outcome = true) := by
  unfold processMessage
  by_cases hsusp : projectSuspendedIn st.projects m.project_id = true
  · have hc : deliversCond st.projects m outcome = false := by
      simp [deliversCond, hsusp]
    rw [if_pos hsusp, hc, if_neg (by simp)]
    exact ⟨rfl, rfl, ⟨_, rfl, rfl, by simp [hc]⟩⟩
  · have hsusp' : projectSuspendedIn st.projects m.project_id = false :=
      Bool.eq_false_iff.mpr hsusp
    rw [if_neg hsusp]
    by_cases hcap : m.max_attempts ≤ m.attempts
    · have hc : deliversCond st.projects m outcome = false := by
        simp [deliversCond, hsusp']
        omega
      rw [if_pos hcap, hc, if_neg (by simp)]
      exact ⟨rfl, rfl, ⟨_, rfl, rfl, by simp [hc]⟩⟩
    · rw [if_neg hcap]
      cases hprov : getProvider m.type with
      | error e =>
        have hc : deliversCond st.projects m outcome = false := by
          simp [deliversCond, hsusp', hprov]
        rw [hc, if_neg (by simp)]
        exact ⟨rfl, rfl, ⟨_, rfl, rfl, by simp [hc]⟩⟩
      | ok u =>
        cases outcome with
        | exn e =>
          have hc : deliversCond st.projects m (ProviderOutcome.exn e) = false := by
            simp [deliversCond, hsusp', hprov]
          rw [hc, if_neg (by simp)]
          exact ⟨rfl, rfl, ⟨_, rfl, rfl, by simp [hc]⟩⟩
        | result success retryable resp em =>
          cases success with
          | true =>
            have hc : deliversCond st.projects m
                (ProviderOutcome.result true retryable resp em) = true := by
              simp [deliversCond, hsusp', hprov]
              omega
            rw [hc, if_pos rfl]
            exact ⟨rfl, rfl, ⟨_, rfl, rfl, by simp [hc]⟩⟩
          | false =>
            have hc : deliversCond st.projects m
                (ProviderOutcome.result false retryable resp em) = false := by
              simp [deliversCond, hsusp', hprov]
            rw [hc, if_neg (by simp)]
            cases retryable with
            | true =>
              exact ⟨rfl, rfl, ⟨_, rfl, rfl, by simp [hc]⟩⟩
            | false =>
              exact ⟨rfl, rfl, ⟨_, rfl, rfl, by simp [hc]⟩⟩

/-- Trace-level accounting: folding any batch of dispatcher iterations
preserves the usage UNIQUE constraint, adds to each usage bucket exactly
the number of delivered steps for its key, and adds to each project's
delivered-event count exactly the number of delivered steps for that
project. -/
theorem runSteps_counts (st : DBState) (steps : List Step) (pid : Nat)
    (per ch : String) (hwf : usageWF st.usage) :
    usageWF (runSteps st steps).usage ∧
    usageCount (runSteps st steps).usage pid per ch
      = usageCount st.usage pid per ch
        + countDelivered st.projects steps pid per ch ∧
    deliveredEventCount (runSteps st steps).events pid
      = deliveredEventCount st.events pid
        + countDeliveredProj st.projects steps pid := by
  induction steps generalizing st with
  | nil =>
    exact ⟨hwf, by simp [runSteps, countDelivered],
      by simp [runSteps, countDeliveredProj]⟩
  | cons s rest ih =>
    obtain ⟨hproj, husage, ev, hev, hevpid, hevtype⟩ :=
      processMessage_effects st s.nowMs s.period s.eventId s.m s.outcome
    have hrun : runSteps st (s :: rest)
        = runSteps (processMessage st s.nowMs s.period s.eventId s.m s.outcome)
            rest := rfl
    have hwf1 : usageWF
        (processMessage st s.nowMs s.period s.eventId s.m s.outcome).usage := by
      rw [husage]
      by_cases hc : deliversCond st.projects s.m s.outcome = true
      · rw [if_pos hc]
        exact incrementUsage_WF _ _ _ _ hwf
      · rw [if_neg hc]
        exact hwf
    obtain ⟨ihwf, ihusage, ihev⟩ :=
      ih (processMessage st s.nowMs s.period s.eventId s.m s.outcome) hwf1
    rw [hproj] at ihusage ihev
    refine ⟨by rw [hrun]; exact ihwf, ?_, ?_⟩
    · have hcons : countDelivered st.projects (s :: rest) pid per ch
          = (if (deliversCond st.projects s.m s.outcome && s.m.project_id == pid &&
                s.period == per && s.m.type == ch) = true then 1 else 0)
            + countDelivered st.projects rest pid per ch := by
        unfold countDelivered
        rw [List.filter_cons]
        by_cases h : (deliversCond st.projects s.m s.outcome &&
            s.m.project_id == pid && s.period == per && s.m.type == ch) = true
        · rw [if_pos h, if_pos h, List.length_cons]
          omega
        · rw [if_neg h, if_neg h]
          omega
      rw [hrun, ihusage, husage, hcons]
      by_cases hc : deliversCond st.projects s.m s.outcome = true
      · rw [if_pos hc,
          incrementUsage_usageCount st.usage s.m.project_id s.period s.m.type hwf
            pid per ch]
        by_cases hk : s.m.project_id = pid ∧ s.period = per ∧ s.m.type = ch
        · obtain ⟨k1, k2, k3⟩ := hk
          rw [if_pos ⟨k1, k2, k3⟩,
            if_pos (show (deliversCond st.projects s.m s.outcome &&
              s.m.project_id == pid && s.period == per && s.m.type == ch) = true by
                simp [hc, k1, k2, k3])]
          omega
        · rw [if_neg hk,
            if_neg (show ¬ (deliversCond st.projects s.m s.outcome &&
              s.m.project_id == pid && s.period == per && s.m.type == ch) = true by
                intro hx
                apply hk
                simp only [Bool.and_eq_true, beq_iff_eq] at hx
                exact ⟨hx.1.1.2, hx.1.2, hx.2⟩)]
          omega
      · rw [if_neg hc,
          if_neg (show ¬ (deliversCond st.projects s.m s.outcome &&
            s.m.project_id == pid && s.period == per && s.m.type == ch) = true by
              intro hx
              apply hc
              simp only [Bool.and_eq_true] at hx
              exact hx.1.1.1)]
        omega
    · have hcons : countDeliveredProj st.projects (s :: rest) pid
          = (if (deliversCond st.projects s.m s.outcome &&
                s.m.project_id == pid) = true then 1 else 0)
            + countDeliveredProj st.projects rest pid := by
        unfold countDeliveredProj
        rw [List.filter_cons]
        by_cases h : (deliversCond st.projects s.m s.outcome &&
            s.m.project_id == pid) = true
        · rw [if_pos h, if_pos h, List.length_cons]
          omega
        · rw [if_neg h, if_neg h]
          omega
      rw [hev, deliveredEventCount_append] at ihev
      rw [hrun, ihev, hcons]
      by_cases hc : deliversCond st.projects s.m s.outcome = true
      · by_cases hp : s.m.project_id = pid
        · rw [if_pos ⟨hevtype.mpr hc, by rw [hevpid, hp]⟩,
            if_pos (show (deliversCond st.projects s.m s.outcome &&
              s.m.project_id == pid) = true by simp [hc, hp])]
          omega
        · rw [if_neg (show ¬ (ev.event_type = EventType.delivered ∧
              ev.project_id = pid) from fun hx => hp (by rw [← hevpid]; exact hx.2)),
            if_neg (show ¬ (deliversCond st.projects s.m s.outcome &&
              s.m.project_id == pid) = true by
                intro hx
                apply hp
                simp only [Bool.and_eq_true, beq_iff_eq] at hx
                exact hx.2)]
          omega
      · rw [if_neg (show ¬ (ev.event_type = EventType.delivered ∧
            ev.project_id = pid) from fun hx => hc (hevtype.mp hx.1)),
          if_neg (show ¬ (deliversCond st.projects s.m s.outcome &&
            s.m.project_id == pid) = true by
              intro hx
              apply hc
              simp only [Bool.and_eq_true] at hx
              exact hx.1)]
        omega

/-- C10: across any batch of dispatcher iterations, each usage bucket
is incremented (by the atomic upsert, 1 per step) exactly for the steps
that take the delivered branch of its key, each project's delivered-event
count grows by exactly its delivered steps — so usage increments equal
delivered events per `(project, period, channel)` — and steps taking the
failed/dead/skipped branches never change usage.  The last conjunct
specialises the two counts to a homogeneous trace (one channel, one
period), making the bucket delta and the delivered-event delta equal. -/
theorem usage_increment_matches_delivered (st : DBState) (steps : List Step)
    (pid : Nat) (per ch : String) (hwf : usageWF st.usage) :
    usageWF (runSteps st steps).usage ∧
    usageCount (runSteps st steps).usage pid per ch
      = usageCount st.usage pid per ch
        + countDelivered st.projects steps pid per ch ∧
    deliveredEventCount (runSteps st steps).events pid
      = deliveredEventCount st.events pid
        + countDeliveredProj st.projects steps pid ∧
    ((∀ s ∈ steps, s.period = per ∧ s.m.type = ch) →
      countDelivered st.projects steps pid per ch
        = countDeliveredProj st.projects steps pid) := by
  obtain ⟨h1, h2, h3⟩ := runSteps_counts st steps pid per ch hwf
  refine ⟨h1, h2, h3, ?_⟩
  intro hhom
  unfold countDelivered countDeliveredProj
  congr 1
  apply List.filter_congr
  intro x hx
  obtain ⟨hp, ht⟩ := hhom x hx
  simp [hp, ht]

/-- Witness for C10: a two-step trace (one delivered email, one retryable
failure) on an empty ledger — usage bucket reaches exactly 1, matching one
delivered event; the failed step adds nothing. -/
theorem usage_increment_matches_delivered_witness :
    usageWF (runSteps exState
      [⟨1000, "2026-10", 2, exMsg, ProviderOutcome.result true false [] none⟩,
       ⟨2000, "2026-10", 3, { exMsg with id := 2 },
         ProviderOutcome.result false true [] none⟩]).usage ∧
    usageCount (runSteps exState
      [⟨1000, "2026-10", 2, exMsg, ProviderOutcome.result true false [] none⟩,
       ⟨2000, "2026-10", 3, { exMsg with id := 2 },
         ProviderOutcome.result false true [] none⟩]).usage 1 "2026-10" "email"
      = usageCount exState.usage 1 "2026-10" "email"
        + countDelivered exState.projects
            [⟨1000, "2026-10", 2, exMsg, ProviderOutcome.result true false [] none⟩,
             ⟨2000, "2026-10", 3, { exMsg with id := 2 },
               ProviderOutcome.result false true [] none⟩] 1 "2026-10" "email" ∧
    deliveredEventCount (runSteps exState
      [⟨1000, "2026-10", 2, exMsg, ProviderOutcome.result true false [] none⟩,
       ⟨2000, "2026-10", 3, { exMsg with id := 2 },
         ProviderOutcome.result false true [] none⟩]).events 1
      = deliveredEventCount exState.events 1
        + countDeliveredProj exState.projects
            [⟨1000, "2026-10", 2, exMsg, ProviderOutcome.result true false [] none⟩,
             ⟨2000, "2026-10", 3, { exMsg with id := 2 },
               ProviderOutcome.result false true [] none⟩] 1 ∧
    ((∀ s ∈ [⟨1000, "2026-10", 2, exMsg, ProviderOutcome.result true false [] none⟩,
             ⟨2000, "2026-10", 3, ({ exMsg with id := 2 } : Msg),
               ProviderOutcome.result false true [] none⟩],
        Step.period s = "2026-10" ∧ (Step.m s).type = "email") →
      countDelivered exState.projects
          [⟨1000, "2026-10", 2, exMsg, ProviderOutcome.result true false [] none⟩,
           ⟨2000, "2026-10", 3, { exMsg with id := 2 },
             ProviderOutcome.result false true [] none⟩] 1 "2026-10" "email"
        = countDeliveredProj exState.projects
            [⟨1000, "2026-10", 2, exMsg, ProviderOutcome.result true false [] none⟩,
             ⟨2000, "2026-10", 3, { exMsg with id := 2 },
               ProviderOutcome.result false true [] none⟩] 1) :=
  usage_increment_matches_delivered exState
    [⟨1000, "2026-10", 2, exMsg, ProviderOutcome.result true false [] none⟩,
     ⟨2000, "2026-10", 3, { exMsg with id := 2 },
       ProviderOutcome.result false true [] none⟩] 1 "2026-10" "email"
    (fun pid per ch => by simp [usageKey, exState])

/-! ## C4 — accept pipeline order and atomic insert -/

/-- Frame of one handler run, by case analysis over every path of
`postMessages`: projects and usage are never touched; a non-accepted
response leaves `messages` and `events` untouched; an accepted response
carries the fresh id and appends exactly the inserted row and its
`requested` event, and certifies that no row with its idempotency key
existed in the committed-or-concurrent table (the unique index admitted the
insert). -/
theorem postMessages_frame (st : DBState) (concurrent : List Msg)
    (nowMs : Nat) (period : String) (newId eventId projectId : Nat)
    (reqTo reqFrom : String) (reqSubject : Option String) (reqBody : String)
    (reqKey : Option String) (p : Project)
    (hv : ¬ (reqTo = "" ∨ reqFrom = "" ∨ reqBody = ""))
    (hfind : st.projects.find? (fun q => q.id == projectId) = some p)
    (resp : ApiResponse) (st' : DBState)
    (h : postMessages st concurrent nowMs period newId eventId projectId reqTo
      reqFrom reqSubject reqBody reqKey = (resp, st')) :
    st'.projects = st.projects ∧ st'.usage = st.usage ∧
    ((∀ r, resp ≠ ApiResponse.accepted r) →
      st'.messages = st.messages ∧ st'.events = st.events) ∧
    (∀ r, resp = ApiResponse.accepted r →
      r = newId ∧
      st'.messages = st.messages ++
        [insertedMsg newId nowMs projectId "email" reqFrom reqTo reqSubject
          reqBody (normKey reqKey)] ∧
      st'.events = st.events ++
        [⟨eventId, newId, projectId, EventType.requested, none, nowMs⟩] ∧
      (∀ s, normKey reqKey = some s →
        ((st.messages ++ concurrent).any (fun mm =>
          mm.project_id == projectId && mm.idempotency_key == some s)) = false)) := by
  unfold postMessages at h
  rw [if_neg hv] at h
  simp only [hfind] at h
  by_cases hsusp : (p.status == ProjStatus.suspended) = true
  · rw [if_pos hsusp] at h
    injection h with h1 h2
    subst h1; subst h2
    exact ⟨rfl, rfl, fun _ => ⟨rfl, rfl⟩, fun r hr => by cases hr⟩
  · rw [if_neg hsusp] at h
    cases hq : checkMonthlyQuota st projectId period with
    | none =>
      simp only [hq] at h
      injection h with h1 h2
      subst h1; subst h2
      exact ⟨rfl, rfl, fun _ => ⟨rfl, rfl⟩, fun r hr => by cases hr⟩
    | some q =>
      simp only [hq] at h
      by_cases hqe : q.exceeded = true
      · rw [if_pos hqe] at h
        injection h with h1 h2
        subst h1; subst h2
        exact ⟨rfl, rfl, fun _ => ⟨rfl, rfl⟩, fun r hr => by cases hr⟩
      · rw [if_neg hqe] at h
        cases hrl : checkRateLimit st projectId nowMs with
        | none =>
          simp only [hrl] at h
          injection h with h1 h2
          subst h1; subst h2
          exact ⟨rfl, rfl, fun _ => ⟨rfl, rfl⟩, fun r hr => by cases hr⟩
        | some pr =>
          obtain ⟨r0, buckets⟩ := pr
          simp only [hrl] at h
          by_cases hre : r0.exceeded = true
          · rw [if_pos hre] at h
            injection h with h1 h2
            subst h1; subst h2
            exact ⟨rfl, rfl, fun _ => ⟨rfl, rfl⟩, fun r hr => by cases hr⟩
          · rw [if_neg hre] at h
            by_cases hkt : keyTruthy reqKey = true
            · rw [if_pos hkt] at h
              cases hreq : reqKey with
              | none => rw [hreq] at hkt; cases hkt
              | some s =>
                subst hreq
                have hnk : normKey (some s) = some s := by
                  unfold normKey
                  rw [if_pos hkt]
                cases hfd : st.messages.find? (fun m =>
                    m.project_id == projectId && m.idempotency_key == some s) with
                | some existing =>
                  simp only [hfd] at h
                  injection h with h1 h2
                  subst h1; subst h2
                  exact ⟨rfl, rfl, fun _ => ⟨rfl, rfl⟩, fun r hr => by cases hr⟩
                | none =>
                  simp only [hfd] at h
                  cases hrpc : create_message_with_event
                      { st with rate_buckets := buckets } concurrent newId eventId
                      nowMs projectId "email" reqFrom reqTo reqSubject reqBody
                      (normKey (some s)) with
                  | error e =>
                    simp only [hrpc] at h
                    injection h with h1 h2
                    subst h1; subst h2
                    exact ⟨rfl, rfl, fun _ => ⟨rfl, rfl⟩, fun r hr => by cases hr⟩
                  | ok pr2 =>
                    obtain ⟨st2, row⟩ := pr2
                    simp only [hrpc] at h
                    unfold create_message_with_event at hrpc
                    rw [hnk] at hrpc
                    simp only [hfd] at hrpc
                    by_cases huv : ((st.messages ++ concurrent).any (fun m =>
                        m.project_id == projectId && m.idempotency_key == some s))
                        = true
                    · rw [if_pos huv] at hrpc
                      cases hrpc
                    · rw [if_neg huv] at hrpc
                      injection hrpc with hrpc'
                      injection hrpc' with hst2 hrow
                      subst hst2; subst hrow
                      injection h with h1 h2
                      subst h1; subst h2
                      refine ⟨rfl, rfl, fun hne => absurd rfl (hne newId), ?_⟩
                      intro r hr
                      injection hr with hrid
                      subst hrid
                      rw [hnk]
                      refine ⟨rfl, rfl, rfl, ?_⟩
                      intro s0 hs0
                      injection hs0 with hs0'
                      subst hs0'
                      exact Bool.eq_false_iff.mpr huv
            · rw [if_neg hkt] at h
              have hnk : normKey reqKey = none := by
                unfold normKey
                rw [if_neg hkt]
              cases hrpc : create_message_with_event
                  { st with rate_buckets := buckets } concurrent newId eventId
                  nowMs projectId "email" reqFrom reqTo reqSubject reqBody
                  (normKey reqKey) with
              | error e =>
                simp only [hrpc] at h
                injection h with h1 h2
                subst h1; subst h2
                exact ⟨rfl, rfl, fun _ => ⟨rfl, rfl⟩, fun r hr => by cases hr⟩
              | ok pr2 =>
                obtain ⟨st2, row⟩ := pr2
                simp only [hrpc] at h
                unfold create_message_with_event at hrpc
                rw [hnk] at hrpc
                simp only at hrpc
                injection hrpc with hrpc'
                injection hrpc' with hst2 hrow
                subst hst2; subst hrow
                injection h with h1 h2
                subst h1; subst h2
                refine ⟨rfl, rfl, fun hne => absurd rfl (hne newId), ?_⟩
                intro r hr
                injection hr with hrid
                subst hrid
                refine ⟨rfl, by rw [hnk], rfl, ?_⟩
                intro s0 hs0
                rw [hnk] at hs0
                cases hs0

/-- C4: the accept handler evaluates suspension → quota → rate limit →
idempotency → insert: a suspended project is rejected with nothing changed
regardless of the other checks; a quota rejection changes nothing — in
particular no rate-limit token is consumed; a rate-limit rejection changes
only the charged rate bucket table; every non-accepted response creates no
message row and no event; and a fresh acceptance returns the new id and
appends exactly the message row `status='queued'`, `attempts=0`,
`max_attempts=3`, `next_attempt_at=NULL` together with its `requested`
event, both written by the single RPC transaction. -/
theorem accept_pipeline (st : DBState) (concurrent : List Msg)
    (nowMs : Nat) (period : String) (newId eventId projectId : Nat)
    (reqTo reqFrom : String) (reqSubject : Option String) (reqBody : String)
    (reqKey : Option String) (p : Project)
    (hv : ¬ (reqTo = "" ∨ reqFrom = "" ∨ reqBody = ""))
    (hfind : st.projects.find? (fun q => q.id == projectId) = some p) :
    (p.status = ProjStatus.suspended →
      postMessages st concurrent nowMs period newId eventId projectId reqTo reqFrom
        reqSubject reqBody reqKey = (ApiResponse.projectSuspended, st)) ∧
    (p.status ≠ ProjStatus.suspended →
      ∀ q, checkMonthlyQuota st projectId period = some q → q.exceeded = true →
        postMessages st concurrent nowMs period newId eventId projectId reqTo reqFrom
          reqSubject reqBody reqKey
          = (ApiResponse.quotaExceeded (q.limit.getD 0) q.current, st)) ∧
    (p.status ≠ ProjStatus.suspended →
      ∀ q, checkMonthlyQuota st projectId period = some q → q.exceeded = false →
      ∀ r buckets, checkRateLimit st projectId nowMs = some (r, buckets) →
        r.exceeded = true →
        postMessages st concurrent nowMs period newId eventId projectId reqTo reqFrom
          reqSubject reqBody reqKey
          = (ApiResponse.rateLimitExceeded (r.limit.getD 0) r.current,
             { st with rate_buckets := buckets })) ∧
    (∀ resp st',
      postMessages st concurrent nowMs period newId eventId projectId reqTo reqFrom
        reqSubject reqBody reqKey = (resp, st') →
      st'.projects = st.projects ∧ st'.usage = st.usage ∧
      ((∀ r, resp ≠ ApiResponse.accepted r) →
        st'.messages = st.messages ∧ st'.events = st.events) ∧
      (∀ r, resp = ApiResponse.accepted r →
        r = newId ∧
        st'.messages = st.messages ++
          [insertedMsg newId nowMs projectId "email" reqFrom reqTo reqSubject
            reqBody (normKey reqKey)] ∧
        st'.events = st.events ++
          [⟨eventId, newId, projectId, EventType.requested, none, nowMs⟩])) := by
  have hs := fun (hns : p.status ≠ ProjStatus.suspended) =>
    show (p.status == ProjStatus.suspended) = false by
      cases hps : p.status
      · rfl
      · exact absurd hps hns
  refine ⟨?_, ?_, ?_, ?_⟩
  · intro hsusp
    unfold postMessages
    rw [if_neg hv]
    simp [hfind, hsusp]
  · intro hns q hq hqex
    unfold postMessages
    rw [if_neg hv]
    simp [hfind, hs hns, hq, hqex]
  · intro hns q hq hqex r buckets hrl hrex
    unfold postMessages
    rw [if_neg hv]
    simp [hfind, hs hns, hq, hqex, hrl, hrex]
  · intro resp st' h
    obtain ⟨h1, h2, h3, h4⟩ := postMessages_frame st concurrent nowMs period newId
      eventId projectId reqTo reqFrom reqSubject reqBody reqKey p hv hfind
      resp st' h
    exact ⟨h1, h2, h3, fun r hr =>
      ⟨(h4 r hr).1, (h4 r hr).2.1, (h4 r hr).2.2.1⟩⟩

/-- Witness for C4: a suspended project is rejected with the database
untouched (first conjunct of the theorem at a concrete state). -/
theorem accept_pipeline_witness :
    postMessages ⟨[⟨1, ProjStatus.suspended, none, none⟩], [], [], [], []⟩ [] 1000
        "2026-10" 5 6 1 "a@x" "b@y" none "hi" none
      = (ApiResponse.projectSuspended,
         ⟨[⟨1, ProjStatus.suspended, none, none⟩], [], [], [], []⟩) :=
  (accept_pipeline ⟨[⟨1, ProjStatus.suspended, none, none⟩], [], [], [], []⟩ []
    1000 "2026-10" 5 6 1 "a@x" "b@y" none "hi" none
    ⟨1, ProjStatus.suspended, none, none⟩ (by simp) (by decide)).1 rfl

/-! ## C2 — idempotency uniqueness and the lost-race path -/

/-- Lemma: `keyCount` distributes over table concatenation. -/
theorem keyCount_append (xs ys : List Msg) (pid : Nat) (k : String) :
    keyCount (xs ++ ys) pid k = keyCount xs pid k + keyCount ys pid k := by
  unfold keyCount
  rw [List.filter_append, List.length_append]

/-- If no row matches a key, that key's count is zero. -/
theorem keyCount_zero_of_any_false (xs : List Msg) (pid : Nat) (k : String)
    (h : (xs.any (fun m =>
      m.project_id == pid && m.idempotency_key == some k)) = false) :
    keyCount xs pid k = 0 := by
  unfold keyCount
  have hnil : xs.filter (fun m =>
      m.project_id == pid && m.idempotency_key == some k) = [] := by
    rw [List.filter_eq_nil_iff]
    intro m hm hp
    have hx : (xs.any (fun m =>
        m.project_id == pid && m.idempotency_key == some k)) = true :=
      List.any_eq_true.mpr ⟨m, hm, hp⟩
    rw [h] at hx
    simp at hx
  rw [hnil]
  rfl

/-- Counterexample to C2 as frozen: with an empty committed table and a
concurrent winner holding key `k1` (committed between the guard's read and
this transaction's insert), the accept call returns `internal_error` — the
guard is not re-consulted and the caller does not receive the winner's id
42 — though the transaction does roll back, so no message row is created. -/
theorem lost_race_returns_internal_error :
    postMessages ⟨[exProject], [], [], [], []⟩
        [{ exMsg with id := 42, idempotency_key := some "k1" }]
        1000 "2026-10" 7 8 1 "a@x" "b@y" none "hi" (some "k1")
      = (ApiResponse.internalError, ⟨[exProject], [], [], [], []⟩) := by
  decide

/-- C2 (amended): at most one message row per
`(project_id, idempotency_key)` is preserved by every accept call (the
unique partial index arbitrates); an accept whose key already has a message
visible at check time returns that message's id with `duplicate = true` and
inserts nothing; but when a concurrent accept wins the race between the
guard read and the insert, the unique-index violation aborts the RPC
transaction and the handler's catch returns `internal_error` — the guard is
not re-consulted, the caller receives an error rather than the winner's id
(and still no second row is created). -/
theorem idempotency_unique_and_lost_race (st : DBState) (concurrent : List Msg)
    (nowMs : Nat) (period : String) (newId eventId projectId : Nat)
    (reqTo reqFrom : String) (reqSubject : Option String) (reqBody : String)
    (reqKey : Option String) (p : Project)
    (hv : ¬ (reqTo = "" ∨ reqFrom = "" ∨ reqBody = ""))
    (hfind : st.projects.find? (fun q => q.id == projectId) = some p)
    (hns : p.status ≠ ProjStatus.suspended) :
    (∀ q, checkMonthlyQuota st projectId period = some q → q.exceeded = false →
     ∀ r0 buckets, checkRateLimit st projectId nowMs = some (r0, buckets) →
       r0.exceeded = false →
     keyTruthy reqKey = true →
     ∀ existing, st.messages.find? (fun m =>
         m.project_id == projectId && m.idempotency_key == reqKey) = some existing →
       postMessages st concurrent nowMs period newId eventId projectId reqTo
         reqFrom reqSubject reqBody reqKey
         = (ApiResponse.duplicate existing.id existing.status,
            { st with rate_buckets := buckets })) ∧
    (∀ resp st',
      postMessages st concurrent nowMs period newId eventId projectId reqTo
        reqFrom reqSubject reqBody reqKey = (resp, st') →
      ∀ pid0 k, keyCount (st.messages ++ concurrent) pid0 k ≤ 1 →
        keyCount (st'.messages ++ concurrent) pid0 k ≤ 1) ∧
    (∀ q, checkMonthlyQuota st projectId period = some q → q.exceeded = false →
     ∀ r0 buckets, checkRateLimit st projectId nowMs = some (r0, buckets) →
       r0.exceeded = false →
     ∀ s, reqKey = some s → s ≠ "" →
     st.messages.find? (fun m =>
       m.project_id == projectId && m.idempotency_key == some s) = none →
     ((st.messages ++ concurrent).any (fun m =>
       m.project_id == projectId && m.idempotency_key == some s)) = true →
       postMessages st concurrent nowMs period newId eventId projectId reqTo
         reqFrom reqSubject reqBody reqKey
         = (ApiResponse.internalError, { st with rate_buckets := buckets })) := by
  have hs : (p.status == ProjStatus.suspended) = false := by
    cases hps : p.status
    · rfl
    · exact absurd hps hns
  refine ⟨?_, ?_, ?_⟩
  · intro q hq hqex r0 buckets hrl hrex hkt existing hfd
    unfold postMessages
    rw [if_neg hv]
    simp [hfind, hs, hq, hqex, hrl, hrex, hkt, hfd]
  · intro resp st' h pid0 k hle
    obtain ⟨_, _, hnacc, haccd⟩ := postMessages_frame st concurrent nowMs period
      newId eventId projectId reqTo reqFrom reqSubject reqBody reqKey p hv hfind
      resp st' h
    by_cases hex : ∃ r, resp = ApiResponse.accepted r
    · obtain ⟨r, hr⟩ := hex
      obtain ⟨hrid, hmsgs, hev, hnone⟩ := haccd r hr
      rw [hmsgs, keyCount_append, keyCount_append]
      rw [keyCount_append] at hle
      cases hnkv : normKey reqKey with
      | none =>
        have hrow : keyCount [insertedMsg newId nowMs projectId "email" reqFrom
            reqTo reqSubject reqBody none] pid0 k = 0 := by
          unfold keyCount insertedMsg
          simp
        omega
      | some s =>
        by_cases hmatch : pid0 = projectId ∧ k = s
        · obtain ⟨hm1, hm2⟩ := hmatch
          subst hm1; subst hm2
          have hzero := keyCount_zero_of_any_false (st.messages ++ concurrent)
            pid0 k (hnone k hnkv)
          rw [keyCount_append] at hzero
          have hrow : keyCount [insertedMsg newId nowMs pid0 "email" reqFrom
              reqTo reqSubject reqBody (some k)] pid0 k ≤ 1 := by
            have := List.length_filter_le
              (fun m => m.project_id == pid0 && m.idempotency_key == some k)
              [insertedMsg newId nowMs pid0 "email" reqFrom reqTo reqSubject
                reqBody (some k)]
            simpa [keyCount] using this
          omega
        · have hrow : keyCount [insertedMsg newId nowMs projectId "email" reqFrom
              reqTo reqSubject reqBody (some s)] pid0 k = 0 := by
            unfold keyCount
            have hnil : List.filter (fun m =>
                m.project_id == pid0 && m.idempotency_key == some k)
                [insertedMsg newId nowMs projectId "email" reqFrom reqTo
                  reqSubject reqBody (some s)] = [] := by
              rw [List.filter_eq_nil_iff]
              intro m hm
              simp only [List.mem_singleton] at hm
              subst hm
              simp only [insertedMsg, Bool.and_eq_true, beq_iff_eq]
              intro hcontra
              refine hmatch ⟨hcontra.1.symm, ?_⟩
              have h2 := hcontra.2
              injection h2 with h2'
              exact h2'.symm
            rw [hnil]
            rfl
          omega
    · push_neg at hex
      obtain ⟨hmsgs, _⟩ := hnacc hex
      rw [hmsgs]
      exact hle
  · intro q hq hqex r0 buckets hrl hrex s hreq hsne hfd huv
    subst hreq
    have hkt : keyTruthy (some s) = true := by
      simp [keyTruthy, hsne]
    have hnk : normKey (some s) = some s := by
      unfold normKey
      rw [if_pos hkt]
    unfold postMessages
    rw [if_neg hv]
    simp [hfind, hs, hq, hqex, hrl, hrex, hkt, hfd, create_message_with_event,
      hnk, huv]

/-- Witness for C2: on a concrete table already holding key `k1`, a second
accept with `k1` returns the existing id 1 with the duplicate response and
changes nothing (first conjunct of the theorem). -/
theorem idempotency_unique_and_lost_race_witness :
    postMessages
        ⟨[exProject], [{ exMsg with idempotency_key := some "k1" }], [], [], []⟩
        [] 1000 "2026-10" 7 8 1 "a@x" "b@y" none "hi" (some "k1")
      = (ApiResponse.duplicate 1 MsgStatus.queued,
         ⟨[exProject], [{ exMsg with idempotency_key := some "k1" }], [], [], []⟩) :=
  (idempotency_unique_and_lost_race
    ⟨[exProject], [{ exMsg with idempotency_key := some "k1" }], [], [], []⟩
    [] 1000 "2026-10" 7 8 1 "a@x" "b@y" none "hi" (some "k1") exProject
    (by simp) (by decide) (by decide)).1
    ⟨false, 0, none⟩ (by decide) rfl ⟨false, 0, none⟩ [] (by decide) rfl
    (by decide) { exMsg with idempotency_key := some "k1" } (by decide)

/-! ## C3 — janitor sweeps -/

/-- With distinct row ids and enough passes, the chunked delete loop removes
exactly the matching rows, in place. -/
theorem chunkSweep_eq_filter {α : Type} (getId : α → Nat) (victim : α → Bool) :
    ∀ (fuel : Nat) (xs : List α), (xs.map getId).Nodup →
      (xs.filter victim).length ≤ fuel →
      chunkSweep getId victim fuel xs = xs.filter (fun x => !(victim x)) := by
  intro fuel
  induction fuel with
  | zero =>
    intro xs hnd hlen
    have hnil : xs.filter victim = [] :=
      List.length_eq_zero.mp (Nat.le_zero.mp hlen)
    have hall : ∀ x ∈ xs, victim x = false := fun x hx =>
      Bool.eq_false_iff.mpr (List.filter_eq_nil_iff.mp hnil x hx)
    have hself : xs.filter (fun x => !(victim x)) = xs :=
      List.filter_eq_self.mpr (fun x hx => by rw [hall x hx]; rfl)
    rw [hself]
    rfl
  | succ n ih =>
    intro xs hnd hlen
    by_cases hemp : ((xs.filter victim).take 1000).map getId = []
    · have htake : (xs.filter victim).take 1000 = [] := List.map_eq_nil_iff.mp hemp
      have hnil : xs.filter victim = [] := by
        rcases List.take_eq_nil_iff.mp htake with h | h
        · cases h
        · exact h
      have hall : ∀ x ∈ xs, victim x = false := fun x hx =>
        Bool.eq_false_iff.mpr (List.filter_eq_nil_iff.mp hnil x hx)
      have hself : xs.filter (fun x => !(victim x)) = xs :=
        List.filter_eq_self.mpr (fun x hx => by rw [hall x hx]; rfl)
      rw [hself]
      unfold chunkSweep
      rw [hemp]
      rfl
    · have hne : ((xs.filter victim).take 1000).map getId ≠ [] := hemp
      have hstep : chunkSweep getId victim (n + 1) xs
          = chunkSweep getId victim n (xs.filter (fun x =>
              !((((xs.filter victim).take 1000).map getId).contains (getId x)))) := by
        conv_lhs => rw [chunkSweep]
        rw [if_neg (by rw [List.isEmpty_iff]; exact hne)]
      have hkeep : ∀ x ∈ xs, victim x = false →
          ¬ getId x ∈ List.take 1000 ((xs.filter victim).map getId) := by
        intro x hx hvx hmem
        have hmem' : getId x ∈ (xs.filter victim).map getId :=
          List.mem_of_mem_take hmem
        obtain ⟨v, hv, hgv⟩ := List.mem_map.mp hmem'
        have hvxs : v ∈ xs := (List.mem_filter.mp hv).1
        have hvv : victim v = true := (List.mem_filter.mp hv).2
        have hveq : v = x := List.inj_on_of_nodup_map hnd hvxs hx hgv
        rw [hveq, hvx] at hvv
        cases hvv
      have hfeq : (xs.filter (fun x =>
          !((((xs.filter victim).take 1000).map getId).contains (getId x)))).filter
            (fun x => !(victim x))
          = xs.filter (fun x => !(victim x)) := by
        rw [List.filter_filter]
        apply List.filter_congr
        intro x hx
        cases hvx : victim x with
        | true => simp
        | false => simp [hkeep x hx hvx]
      have hnd' : ((xs.filter (fun x =>
          !((((xs.filter victim).take 1000).map getId).contains (getId x)))).map
            getId).Nodup :=
        List.Nodup.sublist ((List.filter_sublist xs).map getId) hnd
      have hshrink : ((xs.filter (fun x =>
          !((((xs.filter victim).take 1000).map getId).contains (getId x)))).filter
            victim).length ≤ n := by
        rw [List.filter_comm]
        have hlt : ((xs.filter victim).filter (fun x =>
            !((((xs.filter victim).take 1000).map getId).contains (getId x)))).length
            < (xs.filter victim).length := by
          rw [List.length_filter_lt_length_iff_exists]
          have htakene : (xs.filter victim).take 1000 ≠ [] := by
            intro hcon
            exact hne (by rw [hcon]; rfl)
          obtain ⟨v, hv⟩ := List.exists_mem_of_ne_nil _ htakene
          refine ⟨v, List.mem_of_mem_take hv, ?_⟩
          have hgv : getId v ∈ ((xs.filter victim).take 1000).map getId :=
            List.mem_map_of_mem getId hv
          rw [List.map_take] at hgv
          simp [hgv]
        omega
      rw [hstep, ih _ hnd' hshrink, hfeq]

/-- Counterexample to C3 as frozen: a rate bucket far older than one hour
survives a janitor run untouched — `runJanitor` has no rate-bucket sweep —
while the standalone SQL function `cleanup_rate_limit_tracking` (which the
worker never calls) would have deleted it. -/
theorem janitor_keeps_old_rate_buckets :
    (⟨1, 0, 5⟩ : RateRow).minute_window + 60 * 60 * 1000 < 100 * days30Ms ∧
    (runJanitor ⟨[], [], [], [], [⟨1, 0, 5⟩]⟩ (100 * days30Ms)).rate_buckets
      = [⟨1, 0, 5⟩] ∧
    cleanup_rate_limit_tracking [⟨1, 0, 5⟩] (100 * days30Ms) = [] := by
  decide

/-- C3 (amended): each janitor run performs two sweeps — it deletes
exactly the events older than 30 days and exactly the terminal
(delivered/failed/dead) messages older than 30 days, by chunked deletes of
up to 1000 ids per pass — and leaves the rate-bucket table (and projects
and usage) untouched.  Deleting `RateBucket` rows whose `minute_window` is
older than one hour is the separate SQL function
`cleanup_rate_limit_tracking`, which the janitor does not invoke. -/
theorem janitor_two_sweeps (st : DBState) (nowMs : Nat)
    (hev : (st.events.map Event.id).Nodup)
    (hmsg : (st.messages.map Msg.id).Nodup) :
    (runJanitor st nowMs).events
      = st.events.filter (fun e => !(eventExpired nowMs e)) ∧
    (runJanitor st nowMs).messages
      = st.messages.filter (fun m => !(messageExpired nowMs m)) ∧
    (runJanitor st nowMs).rate_buckets = st.rate_buckets ∧
    (runJanitor st nowMs).projects = st.projects ∧
    (runJanitor st nowMs).usage = st.usage ∧
    (∀ b ∈ cleanup_rate_limit_tracking st.rate_buckets nowMs,
        b ∈ st.rate_buckets ∧ ¬ (b.minute_window + 60 * 60 * 1000 < nowMs)) ∧
    (∀ b ∈ st.rate_buckets, ¬ (b.minute_window + 60 * 60 * 1000 < nowMs) →
        b ∈ cleanup_rate_limit_tracking st.rate_buckets nowMs) := by
  refine ⟨?_, ?_, rfl, rfl, rfl, ?_, ?_⟩
  · exact chunkSweep_eq_filter Event.id (eventExpired nowMs) _ st.events hev
      (by have := List.length_filter_le (eventExpired nowMs) st.events; omega)
  · exact chunkSweep_eq_filter Msg.id (messageExpired nowMs) _ st.messages hmsg
      (by have := List.length_filter_le (messageExpired nowMs) st.messages; omega)
  · intro b hb
    unfold cleanup_rate_limit_tracking at hb
    rw [List.mem_filter] at hb
    refine ⟨hb.1, ?_⟩
    have := hb.2
    simpa using this
  · intro b hb hfresh
    unfold cleanup_rate_limit_tracking
    rw [List.mem_filter]
    exact ⟨hb, by simpa using hfresh⟩

/-- Witness for C3: on a table with one expired and one fresh event, the
janitor deletes exactly the expired one (first conjunct of the theorem at a
concrete state). -/
theorem janitor_two_sweeps_witness :
    (runJanitor ⟨[], [exMsg],
        [⟨1, 1, 1, EventType.requested, none, 0⟩,
         ⟨2, 1, 1, EventType.requested, none, 90 * days30Ms⟩], [], []⟩
      (100 * days30Ms)).events
      = List.filter (fun e => !(eventExpired (100 * days30Ms) e))
          [⟨1, 1, 1, EventType.requested, none, 0⟩,
           ⟨2, 1, 1, EventType.requested, none, 90 * days30Ms⟩] :=
  (janitor_two_sweeps ⟨[], [exMsg],
      [⟨1, 1, 1, EventType.requested, none, 0⟩,
       ⟨2, 1, 1, EventType.requested, none, 90 * days30Ms⟩], [], []⟩
    (100 * days30Ms) (by decide) (by decide)).1

end OrbiCloud
